import Mathlib

/-!
Verification of the branch-prediction coordinator of gem5
(src/cpu/pred/bpred_unit.cc, class BPredUnit).

Shallow embedding decisions:
* Addresses, sequence numbers and thread ids are Nat.  A PCStateBase value
  is modelled by its address (instAddr); cloning is copying the Nat.
* The opaque speculative-history tokens (void pointers in the source) are
  modelled as Option Nat: none stands for NULL, some k for a concrete token.
* The sub-predictors A (direction), B (BTB), C (indirect) and D (RAS) are
  external collaborators.  Their per-call answers are inputs of each
  operation (structures PredResp and SquashResp), so every possible
  collaborator behaviour is covered; the calls made to them are recorded
  in an event trace (type Event).
* A failed assertion or a dereference of a null collaborator pointer is a
  fatal outcome, modelled by returning none.
* instShiftAmt and numThreads play no role in the modelled code paths;
  the per-thread queues are a total function from thread id to list.
-/

/-- Classification of a branch instruction, as far as the coordinator is
concerned.  The four flags mirror the StaticInst predicates the source
consults; advance is the sequential next-PC function of the instruction
(advancePC) and buildRetPC builds the architectural return address from a
PC (the source calls it with the same state for both arguments). -/
structure Inst where
  isUncondCtrl : Bool
  isCall : Bool
  isReturn : Bool
  isDirectCtrl : Bool
  advance : Nat → Nat
  buildRetPC : Nat → Nat

/-- Branch kind, the result of getBranchType. -/
inductive BranchType where
  | ret
  | callDirect
  | callIndirect
  | directCond
  | directUncond
  | indirectCond
  | indirectUncond
deriving DecidableEq

/-- Modelled from the spec: getBranchType is declared outside the given
source file; the spec describes the branch-kind classification with
return taking highest priority, then call, then direct/indirect split by
conditionality. -/
def getBranchType (i : Inst) : BranchType :=
  if i.isReturn then .ret
  else if i.isCall then (if i.isDirectCtrl then .callDirect else .callIndirect)
  else if i.isDirectCtrl then
    (if i.isUncondCtrl then .directUncond else .directCond)
  else (if i.isUncondCtrl then .indirectUncond else .indirectCond)

/-- Modelled from the spec: the PredictorHistory record is declared in the
header bpred_unit.hh, which is not part of the given sources.  Per the
spec, construction takes (seqNum, pc, predTaken, bpHistory,
indirectHistory, tid, inst) and defaults the rest; mispredict starts
false, the boolean bookkeeping flags default to false and the token not
taken by the constructor (rasHistory) starts at null. -/
structure PredictorHistory where
  seqNum : Nat
  pc : Nat
  predTaken : Bool
  bpHistory : Option Nat
  indirectHistory : Option Nat
  rasHistory : Option Nat
  tid : Nat
  inst : Inst
  mispredict : Bool
  wasIndirect : Bool
  pushedRAS : Bool
  target : Nat

/-- Modelled from the spec: the PredictorHistory constructor (header not in
the sources) takes the seven listed fields and defaults every other
field. -/
def PredictorHistory.init (seqNum pc : Nat) (predTaken : Bool)
    (bpHistory indirectHistory : Option Nat) (tid : Nat) (inst : Inst) :
    PredictorHistory :=
  { seqNum := seqNum, pc := pc, predTaken := predTaken,
    bpHistory := bpHistory, indirectHistory := indirectHistory,
    rasHistory := none, tid := tid, inst := inst,
    mispredict := false, wasIndirect := false, pushedRAS := false,
    target := 0 }

/-- One observable call made by the coordinator to a collaborator or to a
probe point.  The opaque instruction handle forwarded to A at commit is
not recorded (it carries no information the coordinator inspects). -/
inductive Event where
  | branchesProbe (count : Nat)
  | missesProbe (count : Nat)
  | aUncond (tid pc : Nat)
  | aLookup (tid pc : Nat)
  | aBtbUpdate (tid pc : Nat)
  | aSquash (tid : Nat) (h : Option Nat)
  | aUpdate (tid pc : Nat) (taken : Bool) (h : Option Nat)
      (squashed : Bool) (target : Nat)
  | btbLookup (tid pc : Nat) (bt : BranchType)
  | btbUpdate (tid pc target : Nat) (bt : BranchType)
  | rasPop (tid : Nat)
  | rasPush (tid addr : Nat)
  | rasSquash (tid : Nat) (h : Option Nat)
  | rasCommit (tid : Nat) (misp : Bool) (bt : BranchType) (h : Option Nat)
  | iLookup (tid sn pc : Nat)
  | iUpdate (tid sn pc : Nat) (squashed taken : Bool) (target : Nat)
      (bt : BranchType) (h : Option Nat)
  | iCommit (tid sn : Nat) (h : Option Nat)
  | iSquash (tid sn : Nat) (h : Option Nat)
deriving DecidableEq

/-- The statistics counters of BPredUnitStats. -/
structure Stats where
  lookups : Nat
  condPredicted : Nat
  condIncorrect : Nat
  BTBLookups : Nat
  BTBUpdates : Nat
  BTBHits : Nat
  RASUsed : Nat
  RASIncorrect : Nat
  indirectLookups : Nat
  indirectHits : Nat
  indirectMisses : Nat
  indirectMispredicted : Nat
deriving DecidableEq

/-- All statistics start at zero. -/
def Stats.init : Stats :=
  { lookups := 0, condPredicted := 0, condIncorrect := 0, BTBLookups := 0,
    BTBUpdates := 0, BTBHits := 0, RASUsed := 0, RASIncorrect := 0,
    indirectLookups := 0, indirectHits := 0, indirectMisses := 0,
    indirectMispredicted := 0 }

/-- Construction-time configuration: whether the optional collaborators C
(indirect predictor, params.indirectBranchPred) and D (RAS, params.ras)
are present.  The BTB is always present. -/
structure Cfg where
  hasIPred : Bool
  hasRAS : Bool

/-- Coordinator state: the per-thread history queues (front = head of the
list = youngest), the statistics and the trace of collaborator calls. -/
structure BPState where
  predHist : Nat → List PredictorHistory
  stats : Stats
  events : List Event

/-- Coordinator state right after construction. -/
def BPState.init : BPState :=
  { predHist := fun _ => [], stats := Stats.init, events := [] }

/-- Answers of the collaborators for one predict call: the direction
prediction and token from A, the RAS pop answer and tokens from D, the
BTB answer from B and the indirect answer and token from C. -/
structure PredResp where
  dirTaken : Bool
  bpTokenU : Option Nat
  bpTokenC : Option Nat
  rasPopAddr : Option Nat
  rasPopTok : Option Nat
  rasPushTok : Option Nat
  btbTarget : Option Nat
  iTarget : Option Nat
  iTok : Option Nat
deriving DecidableEq

/-- Answers of the RAS for the repair calls of the misprediction squash. -/
structure SquashResp where
  popTok : Option Nat
  pushTok : Option Nat
deriving DecidableEq

namespace BPredUnit

/-- Direction decision of predict before any target lookup: unconditional
control is always taken, otherwise A.lookup answers. -/
def dirTaken0 (inst : Inst) (r : PredResp) : Bool :=
  if inst.isUncondCtrl then true else r.dirTaken

/-- Direction stage of predict: consult A (uncondBranch or lookup),
producing the initial taken decision, the bpHistory token, the updated
stats and the events of this stage. -/
def dirStage (inst : Inst) (pc tid : Nat) (r : PredResp) (st : Stats) :
    Bool × Option Nat × Stats × List Event :=
  if inst.isUncondCtrl then
    (true, r.bpTokenU, st, [Event.aUncond tid pc])
  else
    (r.dirTaken, r.bpTokenC,
     { st with condPredicted := st.condPredicted + 1 },
     [Event.aLookup tid pc])

/-- RAS stage of predict, reached only when the prediction is taken: a
return pops D (adopting the produced address as target when there is
one), then a call pushes the return address built from the branch PC.
The source dereferences the RAS with no null check on both paths, so a
missing RAS is fatal (none). -/
def rasStage (cfg : Cfg) (inst : Inst) (pc tid : Nat) (r : PredResp)
    (ph : PredictorHistory) (st : Stats) :
    Option (Nat × PredictorHistory × Stats × List Event) :=
  let popRes : Option (Nat × PredictorHistory × Stats × List Event) :=
    if inst.isReturn then
      if cfg.hasRAS then
        some (r.rasPopAddr.getD pc, { ph with rasHistory := r.rasPopTok },
              { st with RASUsed := st.RASUsed + 1 }, [Event.rasPop tid])
      else none
    else some (pc, ph, st, [])
  match popRes with
  | none => none
  | some (tgt, ph1, st1, evs) =>
    if inst.isCall then
      if cfg.hasRAS then
        some (tgt, { ph1 with rasHistory := r.rasPushTok }, st1,
              evs ++ [Event.rasPush tid (inst.buildRetPC pc)])
      else none
    else some (tgt, ph1, st1, evs)

/-- BTB stage of predict (taken, not a return, direct control or no
indirect predictor): look the target up in B.  On a miss the prediction
is forced to not-taken and the target advanced sequentially; the
btbUpdate hook of A fires when the instruction is neither call nor
return, and a conditional call undoes its RAS push (D.squash releases
the token: modelled from the spec, tokens are released exactly once, so
the record's token becomes null). -/
def btbStage (cfg : Cfg) (inst : Inst) (pc tid : Nat) (r : PredResp)
    (predTaken : Bool) (target : Nat) (ph : PredictorHistory) (st : Stats) :
    Option (Bool × Nat × PredictorHistory × Stats × List Event) :=
  let st1 := { st with BTBLookups := st.BTBLookups + 1 }
  let evs : List Event := [Event.btbLookup tid pc (getBranchType inst)]
  match r.btbTarget with
  | some t =>
    some (predTaken, t, ph, { st1 with BTBHits := st1.BTBHits + 1 }, evs)
  | none =>
    let ph1 := { ph with predTaken := false }
    if !inst.isCall && !inst.isReturn then
      some (false, inst.advance target, ph1, st1,
            evs ++ [Event.aBtbUpdate tid pc])
    else if inst.isCall && !inst.isUncondCtrl then
      if cfg.hasRAS then
        some (false, inst.advance target,
              { ph1 with rasHistory := none, pushedRAS := false }, st1,
              evs ++ [Event.rasSquash tid ph1.rasHistory])
      else none
    else
      some (false, inst.advance target, ph1, st1, evs)

/-- Indirect stage of predict (taken, not a return, indirect control with
C present): mark the record as indirect and consult C.  On a miss the
prediction is forced to not-taken and the target advanced; a conditional
call undoes its RAS push, and nothing happens in the neither-call-nor-
return case (the source has an intentionally empty branch there, no
btbUpdate).  Note the source does not clear pushedRAS here. -/
def indirectStage (cfg : Cfg) (inst : Inst) (seqNum pc tid : Nat)
    (r : PredResp) (predTaken : Bool) (target : Nat)
    (ph : PredictorHistory) (st : Stats) :
    Option (Bool × Nat × PredictorHistory × Stats × List Event) :=
  let ph1 := { ph with wasIndirect := true, indirectHistory := r.iTok }
  let st1 := { st with indirectLookups := st.indirectLookups + 1 }
  let evs : List Event := [Event.iLookup tid seqNum pc]
  match r.iTarget with
  | some t =>
    some (predTaken, t, ph1,
          { st1 with indirectHits := st1.indirectHits + 1 }, evs)
  | none =>
    let st2 := { st1 with indirectMisses := st1.indirectMisses + 1 }
    let ph2 := { ph1 with predTaken := false }
    if !inst.isCall && !inst.isReturn then
      some (false, inst.advance target, ph2, st2, evs)
    else if inst.isCall && !inst.isUncondCtrl then
      if cfg.hasRAS then
        some (false, inst.advance target, { ph2 with rasHistory := none },
              st2, evs ++ [Event.rasSquash tid ph2.rasHistory])
      else none
    else
      some (false, inst.advance target, ph2, st2, evs)

/-- Target-selection stage of predict: nothing when the prediction is
not taken (sequential advance), otherwise the RAS stage followed by the
BTB or indirect stage for non-returns. -/
def targetStage (cfg : Cfg) (inst : Inst) (seqNum pc tid : Nat)
    (r : PredResp) (predTaken0 : Bool) (ph0 : PredictorHistory)
    (stD : Stats) :
    Option (Bool × Nat × PredictorHistory × Stats × List Event) :=
  if predTaken0 then
    match rasStage cfg inst pc tid r ph0 stD with
    | none => none
    | some (tgt1, ph1, st1, evR) =>
      if !inst.isReturn then
        if inst.isDirectCtrl || !cfg.hasIPred then
          match btbStage cfg inst pc tid r predTaken0 tgt1 ph1 st1 with
          | none => none
          | some (b, t, ph2, st2, evB) => some (b, t, ph2, st2, evR ++ evB)
        else
          match indirectStage cfg inst seqNum pc tid r predTaken0 tgt1 ph1 st1 with
          | none => none
          | some (b, t, ph2, st2, evB) => some (b, t, ph2, st2, evR ++ evB)
      else some (predTaken0, tgt1, ph1, st1, evR)
  else
    some (false, inst.advance pc, ph0, stD, [])

/-- BPredUnit::predict, as a function of the inputs, the collaborator
answers and the statistics.  Returns the taken decision, the value
written back into the pc argument, the history record to be pushed, the
events of the call and the updated statistics; none is a fatal null-RAS
dereference. -/
def predictCore (cfg : Cfg) (inst : Inst) (seqNum pc tid : Nat)
    (r : PredResp) (st : Stats) :
    Option (Bool × Nat × PredictorHistory × List Event × Stats) :=
  let st0 := { st with lookups := st.lookups + 1 }
  match dirStage inst pc tid r st0 with
  | (predTaken0, bpTok, stD, evD) =>
    let evs0 := Event.branchesProbe 1 :: evD
    let ph0 := PredictorHistory.init seqNum pc predTaken0 bpTok none tid inst
    match targetStage cfg inst seqNum pc tid r predTaken0 ph0 stD with
    | none => none
    | some (b, tgt, ph, stF, evT) =>
      let phF := { ph with target := tgt }
      let evI : List Event :=
        if cfg.hasIPred then
          [Event.iUpdate tid seqNum pc false phF.predTaken tgt
             (getBranchType inst) phF.indirectHistory]
        else []
      some (b, tgt, phF, evs0 ++ evT ++ evI, stF)

/-- BPredUnit::predict acting on the coordinator state: run predictCore,
push the new record on the front of the thread queue, append the events
and take the new statistics. -/
def predict (cfg : Cfg) (inst : Inst) (seqNum pc tid : Nat) (r : PredResp)
    (s : BPState) : Option (Bool × Nat × BPState) :=
  match predictCore cfg inst seqNum pc tid r s.stats with
  | none => none
  | some (b, pcOut, ph, evs, st) =>
    some (b, pcOut,
      { predHist := fun t => if t = tid then ph :: s.predHist t else s.predHist t,
        stats := st, events := s.events ++ evs })

/-- Collaborator calls issued when one record commits: the authoritative
update of A (squashed = false), then C.commit when C is present, then
D.commit when D is present. -/
def commitEvents (cfg : Cfg) (tid : Nat) (h : PredictorHistory) :
    List Event :=
  Event.aUpdate tid h.pc h.predTaken h.bpHistory false h.target ::
  ((if cfg.hasIPred then [Event.iCommit tid h.seqNum h.indirectHistory] else [])
   ++ (if cfg.hasRAS then
        [Event.rasCommit tid h.mispredict (getBranchType h.inst) h.rasHistory]
      else []))

/-- Commit loop of BPredUnit::update, acting on the queue reversed (so the
head here is the back of the queue): pop and commit while the sequence
number is at most done_sn.  Returns the remaining (still reversed) queue
and the events in execution order. -/
def commitLoop (cfg : Cfg) (tid done_sn : Nat) :
    List PredictorHistory → List PredictorHistory × List Event
  | [] => ([], [])
  | h :: t =>
    if h.seqNum ≤ done_sn then
      let res := commitLoop cfg tid done_sn t
      (res.1, commitEvents cfg tid h ++ res.2)
    else (h :: t, [])

/-- BPredUnit::update(done_sn, tid): commit from the back of the thread
queue every record with seqNum at most done_sn.  Total: no assertion and
every RAS use is behind a presence check. -/
def update (cfg : Cfg) (done_sn tid : Nat) (s : BPState) : BPState :=
  let res := commitLoop cfg tid done_sn ((s.predHist tid).reverse)
  { predHist := fun t => if t = tid then res.1.reverse else s.predHist t,
    stats := s.stats, events := s.events ++ res.2 }

/-- Collaborator calls issued when one record is flushed: D.squash when
the record holds a RAS token, the release of bpHistory by A.squash, and
C.squash when C is present. -/
def flushEvents (cfg : Cfg) (tid : Nat) (h : PredictorHistory) :
    List Event :=
  (if h.rasHistory.isSome then [Event.rasSquash tid h.rasHistory] else [])
  ++ (Event.aSquash tid h.bpHistory ::
      (if cfg.hasIPred then [Event.iSquash tid h.seqNum h.indirectHistory]
       else []))

/-- Flush loop of the pipeline-flush squash: pop from the front while the
sequence number is strictly greater than squashed_sn.  A record holding
a RAS token while D is absent fails the assert(ras) of the source
(none). -/
def flushLoop (cfg : Cfg) (tid squashed_sn : Nat) :
    List PredictorHistory → Option (List PredictorHistory × List Event)
  | [] => some ([], [])
  | h :: t =>
    if squashed_sn < h.seqNum then
      if h.rasHistory.isSome && !cfg.hasRAS then none
      else
        match flushLoop cfg tid squashed_sn t with
        | none => none
        | some res => some (res.1, flushEvents cfg tid h ++ res.2)
    else some (h :: t, [])

/-- BPredUnit::squash(squashed_sn, tid), the pipeline-flush squash. -/
def squash (cfg : Cfg) (squashed_sn tid : Nat) (s : BPState) :
    Option BPState :=
  match flushLoop cfg tid squashed_sn (s.predHist tid) with
  | none => none
  | some res =>
    some { predHist := fun t => if t = tid then res.1 else s.predHist t,
           stats := s.stats, events := s.events ++ res.2 }

/-- RAS repair of the misprediction squash on the boundary record, guarded
by the presence of D: a taken branch whose record holds no RAS token
gets the missing pop (return) and push (call, return address built from
the corrected target); a not-taken branch whose record holds a token has
it squashed (D releases it: modelled from the spec, the record's token
becomes null). -/
def boundaryRepair (cfg : Cfg) (corr_target : Nat) (actually_taken : Bool)
    (tid : Nat) (r : SquashResp) (f : PredictorHistory) :
    PredictorHistory × List Event :=
  if cfg.hasRAS then
    if actually_taken && f.rasHistory.isNone then
      let step1 : PredictorHistory × List Event :=
        if f.inst.isReturn then
          ({ f with rasHistory := r.popTok }, [Event.rasPop tid])
        else (f, [])
      if f.inst.isCall then
        ({ step1.1 with rasHistory := r.pushTok },
         step1.2 ++ [Event.rasPush tid (f.inst.buildRetPC corr_target)])
      else step1
    else if !actually_taken && f.rasHistory.isSome then
      ({ f with rasHistory := none }, [Event.rasSquash tid f.rasHistory])
    else (f, [])
  else (f, [])

/-- BPredUnit::squash(squashed_sn, corr_target, actually_taken, tid), the
misprediction squash: bump condIncorrect and fire the Misses probe, flush
everything younger, return silently when the queue came out empty, fail
the assertion when the new front does not carry squashed_sn, and
otherwise repair the boundary record: count a RAS token as RASIncorrect,
overwrite direction, target and mispredict with the ground truth, give A
its squashed update and C its squashed update when present, repair D
when present, and finally update B (or count an indirect mispredict). -/
def squashMispredict (cfg : Cfg) (squashed_sn corr_target : Nat)
    (actually_taken : Bool) (tid : Nat) (r : SquashResp) (s : BPState) :
    Option BPState :=
  let st0 := { s.stats with condIncorrect := s.stats.condIncorrect + 1 }
  let evs0 := s.events ++ [Event.missesProbe 1]
  match flushLoop cfg tid squashed_sn (s.predHist tid) with
  | none => none
  | some fl =>
    match fl.1 with
    | [] =>
      some { predHist := fun t => if t = tid then [] else s.predHist t,
             stats := st0, events := evs0 ++ fl.2 }
    | f :: rest =>
      if f.seqNum = squashed_sn then
        let st1 := if f.rasHistory.isSome then
            { st0 with RASIncorrect := st0.RASIncorrect + 1 } else st0
        let f1 := { f with predTaken := actually_taken,
                           target := corr_target, mispredict := true }
        let evs1 := evs0 ++ fl.2
          ++ [Event.aUpdate tid f.pc actually_taken f.bpHistory true corr_target]
          ++ (if cfg.hasIPred then
                [Event.iUpdate tid squashed_sn f.pc true actually_taken
                   corr_target (getBranchType f.inst) f.indirectHistory]
              else [])
        let rep := boundaryRepair cfg corr_target actually_taken tid r f1
        let final : Stats × List Event :=
          if actually_taken then
            if f.wasIndirect then
              ({ st1 with
                   indirectMispredicted := st1.indirectMispredicted + 1 },
               evs1 ++ rep.2)
            else
              ({ st1 with BTBUpdates := st1.BTBUpdates + 1 },
               evs1 ++ rep.2
                 ++ [Event.btbUpdate tid f.pc corr_target
                       (getBranchType f.inst)])
          else (st1, evs1 ++ rep.2)
        some { predHist := fun t => if t = tid then rep.1 :: rest
                                    else s.predHist t,
               stats := final.1, events := final.2 }
      else none

/-- One call into the coordinator. -/
inductive Op where
  | predict (inst : Inst) (seqNum pc tid : Nat) (r : PredResp)
  | update (done_sn tid : Nat)
  | squash (squashed_sn tid : Nat)
  | mispredict (squashed_sn corr_target : Nat) (actually_taken : Bool)
      (tid : Nat) (r : SquashResp)

/-- Effect of one call on the coordinator state; none is a fatal outcome
(failed assertion or null dereference). -/
def step (cfg : Cfg) (s : BPState) : Op → Option BPState
  | .predict inst sn pc tid r =>
    match predict cfg inst sn pc tid r s with
    | none => none
    | some (_, _, s1) => some s1
  | .update d tid => some (update cfg d tid s)
  | .squash sn tid => squash cfg sn tid s
  | .mispredict sn ct tk tid r => squashMispredict cfg sn ct tk tid r s

/-- Run a sequence of calls, stopping fatally when one does. -/
def run (cfg : Cfg) (s : BPState) : List Op → Option BPState
  | [] => some s
  | op :: ops =>
    match step cfg s op with
    | none => none
    | some s1 => run cfg s1 ops

end BPredUnit

/-! Concrete fixtures used by witnesses and counterexamples. -/

/-- An unconditional direct jump; sequential advance by 4. -/
def instJmp : Inst :=
  { isUncondCtrl := true, isCall := false, isReturn := false,
    isDirectCtrl := true, advance := (· + 4), buildRetPC := (· + 4) }

/-- A conditional direct call. -/
def instCondCall : Inst :=
  { isUncondCtrl := false, isCall := true, isReturn := false,
    isDirectCtrl := true, advance := (· + 4), buildRetPC := (· + 4) }

/-- An unconditional direct call. -/
def instUncondCall : Inst :=
  { isUncondCtrl := true, isCall := true, isReturn := false,
    isDirectCtrl := true, advance := (· + 4), buildRetPC := (· + 4) }

/-- A conditional return. -/
def instRet : Inst :=
  { isUncondCtrl := false, isCall := false, isReturn := true,
    isDirectCtrl := false, advance := (· + 4), buildRetPC := (· + 4) }

/-- Configuration with a RAS but no indirect predictor. -/
def cfgRasOnly : Cfg := { hasIPred := false, hasRAS := true }

/-- Configuration with both optional collaborators. -/
def cfgBoth : Cfg := { hasIPred := true, hasRAS := true }

/-- Configuration with neither optional collaborator. -/
def cfgBare : Cfg := { hasIPred := false, hasRAS := false }

/-- Collaborator answers: direction taken, BTB miss, empty RAS answer. -/
def respMiss : PredResp :=
  { dirTaken := true, bpTokenU := some 1, bpTokenC := some 2,
    rasPopAddr := none, rasPopTok := some 3, rasPushTok := some 4,
    btbTarget := none, iTarget := none, iTok := some 5 }

/-- Collaborator answers: direction taken, BTB hit at 8192. -/
def respHit : PredResp :=
  { dirTaken := true, bpTokenU := some 1, bpTokenC := some 2,
    rasPopAddr := none, rasPopTok := some 3, rasPushTok := some 4,
    btbTarget := some 8192, iTarget := some 8192, iTok := some 5 }

/-- Default history record, used only to give Option.getD a default. -/
def phDflt : PredictorHistory :=
  PredictorHistory.init 0 0 false none none 0 instJmp

/-- Default predictCore output, used only to give Option.getD a default. -/
def pcDflt : Bool × Nat × PredictorHistory × List Event × Stats :=
  (false, 0, phDflt, [], Stats.init)

namespace BPredUnit

/-- C1: on a taken direction prediction, a BTB miss (direct control, or
any control when the indirect predictor is absent) forces the final
prediction to not-taken in the return value and in the record, makes the
target the sequential fall-through PC, invokes the btbUpdate hook of A
exactly when the instruction is neither call nor return, and for a
conditional call undoes the RAS push by a D.squash of the record's
rasHistory (clearing pushedRAS). -/
theorem btb_miss_forces_not_taken (cfg : Cfg) (inst : Inst)
    (sn pc tid : Nat) (r : PredResp) (st : Stats) (b : Bool) (pc1 : Nat)
    (ph : PredictorHistory) (evs : List Event) (st1 : Stats)
    (hT : dirTaken0 inst r = true) (hR : inst.isReturn = false)
    (hD : inst.isDirectCtrl = true ∨ cfg.hasIPred = false)
    (hM : r.btbTarget = none)
    (hS : predictCore cfg inst sn pc tid r st = some (b, pc1, ph, evs, st1)) :
    b = false ∧ pc1 = inst.advance pc ∧ ph.predTaken = false ∧
    ph.target = inst.advance pc ∧
    ((Event.aBtbUpdate tid pc ∈ evs) ↔ inst.isCall = false) ∧
    (inst.isCall = true → inst.isUncondCtrl = false →
      Event.rasSquash tid r.rasPushTok ∈ evs ∧ ph.rasHistory = none ∧
      ph.pushedRAS = false) := by
  cases hu : inst.isUncondCtrl <;> cases hc : inst.isCall <;>
    cases hip : cfg.hasIPred <;> cases hras : cfg.hasRAS <;>
    rcases hD with hd | hd <;>
    simp_all [predictCore, targetStage, dirStage, rasStage, btbStage, indirectStage,
      dirTaken0, PredictorHistory.init] <;>
    (obtain ⟨hb, hpc, hph, hevs, hst⟩ := hS; subst hpc; subst hph;
     subst hevs; simp)

end BPredUnit

/-- Output of predict in the C1 witness scenario: conditional direct call,
direction predicted taken, BTB miss, RAS present. -/
def c1out : Bool × Nat × PredictorHistory × List Event × Stats :=
  (BPredUnit.predictCore cfgRasOnly instCondCall 10 4096 0 respMiss
    Stats.init).getD pcDflt

/-- Witness for C1 at a concrete input: all hypotheses hold and the
conclusion evaluates. -/
theorem btb_miss_forces_not_taken_witness :
    c1out.1 = false ∧ c1out.2.1 = instCondCall.advance 4096 ∧
    c1out.2.2.1.predTaken = false ∧
    c1out.2.2.1.target = instCondCall.advance 4096 ∧
    ((Event.aBtbUpdate 0 4096 ∈ c1out.2.2.2.1) ↔ instCondCall.isCall = false) ∧
    (instCondCall.isCall = true → instCondCall.isUncondCtrl = false →
      Event.rasSquash 0 respMiss.rasPushTok ∈ c1out.2.2.2.1 ∧
      c1out.2.2.1.rasHistory = none ∧ c1out.2.2.1.pushedRAS = false) :=
  BPredUnit.btb_miss_forces_not_taken cfgRasOnly instCondCall 10 4096 0
    respMiss Stats.init c1out.1 c1out.2.1 c1out.2.2.1 c1out.2.2.2.1
    c1out.2.2.2.2 rfl rfl (Or.inl rfl) rfl rfl

namespace BPredUnit

/-- C4 counterexample: for a taken conditional return whose RAS pop
produces no address, predict returns taken and the branch PC 4096 itself
as target (both in the returned pc and in the record), while the
sequential fall-through PC of the instruction is 4100, not 4096: the
claim that the target becomes the fall-through PC is false. -/
theorem empty_ras_pop_cex :
    (predictCore cfgRasOnly instRet 30 4096 0 respMiss Stats.init).map
      (fun x => (x.1, x.2.1, x.2.2.1.target)) = some (true, 4096, 4096) ∧
    instRet.advance 4096 = 4100 ∧ (4096 : Nat) ≠ 4100 := by
  refine ⟨rfl, rfl, by decide⟩

/-- C4 as amended: for a branch predicted taken that is a return, when the
RAS pop yields no return address, predict does not crash (provided the
RAS is present), still returns taken, and the target written back and
stored in the record is the unchanged incoming branch PC (the source
never advances the PC on this path), not the sequential fall-through. -/
theorem empty_ras_pop_keeps_pc :
    (∀ (cfg : Cfg) (inst : Inst) (sn pc tid : Nat) (r : PredResp)
       (st : Stats), dirTaken0 inst r = true → inst.isReturn = true →
       cfg.hasRAS = true → (predictCore cfg inst sn pc tid r st).isSome) ∧
    (∀ (cfg : Cfg) (inst : Inst) (sn pc tid : Nat) (r : PredResp)
       (st : Stats) (b : Bool) (pc1 : Nat) (ph : PredictorHistory)
       (evs : List Event) (st1 : Stats),
       dirTaken0 inst r = true → inst.isReturn = true →
       r.rasPopAddr = none →
       predictCore cfg inst sn pc tid r st = some (b, pc1, ph, evs, st1) →
       b = true ∧ pc1 = pc ∧ ph.target = pc ∧ ph.predTaken = true) := by
  constructor
  · intro cfg inst sn pc tid r st hT hret hras
    cases hu : inst.isUncondCtrl <;> cases hc : inst.isCall <;>
      simp_all [predictCore, targetStage, dirStage, rasStage, dirTaken0,
        PredictorHistory.init]
  · intro cfg inst sn pc tid r st b pc1 ph evs st1 hT hret hpop hS
    cases hu : inst.isUncondCtrl <;> cases hc : inst.isCall <;>
      cases hras : cfg.hasRAS <;>
      simp_all [predictCore, targetStage, dirStage, rasStage, dirTaken0,
        PredictorHistory.init] <;>
      (obtain ⟨hb, hpc, hph, hevs, hst⟩ := hS; subst hph; subst hpc; simp)

/-- Output of predict in the C4 witness scenario. -/
def c4out : Bool × Nat × PredictorHistory × List Event × Stats :=
  (predictCore cfgRasOnly instRet 30 4096 0 respMiss Stats.init).getD pcDflt

/-- Witness for the amended C4 at a concrete input. -/
theorem empty_ras_pop_keeps_pc_witness :
    (predictCore cfgRasOnly instRet 30 4096 0 respMiss Stats.init).isSome ∧
    (c4out.1 = true ∧ c4out.2.1 = 4096 ∧ c4out.2.2.1.target = 4096 ∧
     c4out.2.2.1.predTaken = true) :=
  ⟨empty_ras_pop_keeps_pc.1 cfgRasOnly instRet 30 4096 0 respMiss Stats.init
      rfl rfl rfl,
   empty_ras_pop_keeps_pc.2 cfgRasOnly instRet 30 4096 0 respMiss Stats.init
      c4out.1 c4out.2.1 c4out.2.2.1 c4out.2.2.2.1 c4out.2.2.2.2
      rfl rfl rfl rfl⟩

/-- C3 counterexample: a conditional direct call predicted taken with a
BTB hit pushes the return address onto the RAS (exactly one rasPush
event, to the built return address 4100), yet the record's pushedRAS
field is false: the source never sets pushedRAS to true, refuting the
claim that it is set on a successful call push. -/
theorem call_push_cex :
    (predictCore cfgRasOnly instCondCall 20 4096 0 respHit Stats.init).map
      (fun x => (x.1, x.2.2.1.pushedRAS, x.2.2.1.rasHistory))
      = some (true, false, some 4) ∧
    Event.rasPush 0 4100 ∈
      ((predictCore cfgRasOnly instCondCall 20 4096 0 respHit
         Stats.init).getD pcDflt).2.2.2.1 := by
  exact ⟨rfl, by decide⟩

/-- C3 as amended: whenever the branch is predicted taken and the
instruction is a call, the return address built from the branch PC is
pushed onto D and the record receives the push token in rasHistory, but
pushedRAS is never set to true: it keeps its default false (it is also
explicitly cleared when a BTB miss on a conditional call undoes the
push).  Either the token survives in the record, or the push was undone
by a D.squash of that token and the record's token is null. -/
theorem call_push_amended (cfg : Cfg) (inst : Inst) (sn pc tid : Nat)
    (r : PredResp) (st : Stats) (b : Bool) (pc1 : Nat)
    (ph : PredictorHistory) (evs : List Event) (st1 : Stats)
    (hT : dirTaken0 inst r = true) (hc : inst.isCall = true)
    (hS : predictCore cfg inst sn pc tid r st = some (b, pc1, ph, evs, st1)) :
    Event.rasPush tid (inst.buildRetPC pc) ∈ evs ∧
    ph.pushedRAS = false ∧
    (ph.rasHistory = r.rasPushTok ∨
      (ph.rasHistory = none ∧ Event.rasSquash tid r.rasPushTok ∈ evs)) := by
  cases hu : inst.isUncondCtrl <;> cases hret : inst.isReturn <;>
    cases hd : inst.isDirectCtrl <;> cases hip : cfg.hasIPred <;>
    cases hras : cfg.hasRAS <;> cases hbt : r.btbTarget <;>
    cases hit : r.iTarget <;>
    simp_all [predictCore, targetStage, dirStage, rasStage, btbStage, indirectStage,
      dirTaken0, PredictorHistory.init] <;>
    (obtain ⟨hb, hpc, hph, hevs, hst⟩ := hS; subst hph; subst hevs; simp)

/-- Output of predict in the C3 witness scenario. -/
def c3out : Bool × Nat × PredictorHistory × List Event × Stats :=
  (predictCore cfgRasOnly instCondCall 20 4096 0 respHit Stats.init).getD
    pcDflt

/-- Witness for the amended C3 at a concrete input. -/
theorem call_push_amended_witness :
    Event.rasPush 0 (instCondCall.buildRetPC 4096) ∈ c3out.2.2.2.1 ∧
    c3out.2.2.1.pushedRAS = false ∧
    (c3out.2.2.1.rasHistory = respHit.rasPushTok ∨
      (c3out.2.2.1.rasHistory = none ∧
       Event.rasSquash 0 respHit.rasPushTok ∈ c3out.2.2.2.1)) :=
  call_push_amended cfgRasOnly instCondCall 20 4096 0 respHit Stats.init
    c3out.1 c3out.2.1 c3out.2.2.1 c3out.2.2.2.1 c3out.2.2.2.2 rfl rfl rfl

end BPredUnit

/-- Recognizer for the Branches probe event. -/
def Event.isProbeB : Event → Bool :=
  fun e => match e with | .branchesProbe _ => true | _ => false

/-- Recognizer for the Misses probe event. -/
def Event.isProbeM : Event → Bool :=
  fun e => match e with | .missesProbe _ => true | _ => false

/-- Recognizer for an authoritative (squashed = false) update of A. -/
def Event.isAuthA : Event → Bool :=
  fun e => match e with | .aUpdate _ _ _ _ false _ => true | _ => false

/-- Recognizer for a BTB update call. -/
def Event.isBtbUpd : Event → Bool :=
  fun e => match e with | .btbUpdate _ _ _ _ => true | _ => false

/-- Recognizer for a commit call to the indirect predictor. -/
def Event.isICommit : Event → Bool :=
  fun e => match e with | .iCommit _ _ _ => true | _ => false

/-- Recognizer for a commit call to the RAS. -/
def Event.isRasCommit : Event → Bool :=
  fun e => match e with | .rasCommit _ _ _ _ => true | _ => false

namespace BPredUnit

/-- A quiet event is one that is neither a probe, nor a BTB update, nor
an authoritative A update, nor a commit call: exactly the kinds of
events that flushing and RAS repair may emit. -/
def quietEvent : Event → Bool := fun e =>
  match e with
  | .branchesProbe _ => false
  | .missesProbe _ => false
  | .btbUpdate _ _ _ _ => false
  | .aUpdate _ _ _ _ squashed _ => squashed
  | .iCommit _ _ _ => false
  | .rasCommit _ _ _ _ => false
  | _ => true

/-- A quiet event is recognized by none of the counting classifiers. -/
theorem quietEvent_class (e : Event) (hq : quietEvent e = true) :
    Event.isProbeB e = false ∧ Event.isProbeM e = false ∧
    Event.isBtbUpd e = false ∧ Event.isAuthA e = false ∧
    Event.isICommit e = false ∧ Event.isRasCommit e = false := by
  cases e <;> simp_all [quietEvent, Event.isProbeB, Event.isProbeM,
    Event.isBtbUpd, Event.isAuthA, Event.isICommit, Event.isRasCommit]

/-- Events emitted while flushing one record are quiet. -/
theorem flushEvents_quiet (cfg : Cfg) (tid : Nat) (h : PredictorHistory) :
    ∀ e ∈ flushEvents cfg tid h, quietEvent e = true := by
  cases hr : h.rasHistory.isSome <;> cases hip : cfg.hasIPred <;>
    simp [flushEvents, hr, hip, quietEvent]

/-- The events of a whole flush loop are quiet. -/
theorem flushLoop_quiet (cfg : Cfg) (tid sn : Nat) :
    ∀ (l : List PredictorHistory) fl,
      flushLoop cfg tid sn l = some fl →
      ∀ e ∈ fl.2, quietEvent e = true := by
  intro l
  induction l with
  | nil => intro fl hfl e he; simp [flushLoop] at hfl; subst hfl; simp at he
  | cons h t ih =>
    intro fl hfl e he
    simp only [flushLoop] at hfl
    by_cases hlt : sn < h.seqNum
    · simp only [if_pos hlt] at hfl
      rcases hcond : (h.rasHistory.isSome && !cfg.hasRAS) with _ | _
      · rw [hcond] at hfl
        simp only [Bool.false_eq_true, if_false] at hfl
        rcases hrec : flushLoop cfg tid sn t with _ | fl1
        · rw [hrec] at hfl; exact absurd hfl (by simp)
        · rw [hrec] at hfl
          simp only [Option.some.injEq] at hfl
          subst hfl
          simp only [List.mem_append] at he
          rcases he with he | he
          · exact flushEvents_quiet cfg tid h e he
          · exact ih fl1 hrec e he
      · rw [hcond] at hfl; exact absurd hfl (by simp)
    · simp only [if_neg hlt, Option.some.injEq] at hfl
      subst hfl; simp at he

/-- Flushing a queue none of whose entries holds a RAS token cannot fail
the assert(ras). -/
theorem flushLoop_total (cfg : Cfg) (tid sn : Nat) :
    ∀ (l : List PredictorHistory),
      (∀ e ∈ l, e.rasHistory = none) → (flushLoop cfg tid sn l).isSome := by
  intro l
  induction l with
  | nil => intro _; simp [flushLoop]
  | cons h t ih =>
    intro hcl
    have hh : h.rasHistory = none := hcl h (by simp)
    have ht : ∀ e ∈ t, e.rasHistory = none := fun e he => hcl e (by simp [he])
    simp only [flushLoop]
    by_cases hlt : sn < h.seqNum
    · simp only [if_pos hlt, hh, Option.isSome_none, Bool.false_and,
        Bool.false_eq_true, if_false]
      rcases hrec : flushLoop cfg tid sn t with _ | fl1
      · have hs := ih ht; rw [hrec] at hs; simp at hs
      · simp
    · simp [if_neg hlt]

/-- C10: predict dereferences the optional RAS with no presence check:
with the RAS absent it is fatal exactly on a taken return or call (parts
1 to 3: fatal there, total whenever the RAS is present, and total
without a RAS when the prediction is not taken or the instruction is
neither return nor call); in contrast the commit path is total by
construction and the flush and misprediction squashes guard every RAS
use (parts 4 and 5: they succeed with the RAS absent whenever their own
assertions hold). -/
theorem predict_requires_ras :
    (∀ (cfg : Cfg) (inst : Inst) (sn pc tid : Nat) (r : PredResp)
       (st : Stats), cfg.hasRAS = false → dirTaken0 inst r = true →
       (inst.isReturn || inst.isCall) = true →
       predictCore cfg inst sn pc tid r st = none) ∧
    (∀ (cfg : Cfg) (inst : Inst) (sn pc tid : Nat) (r : PredResp)
       (st : Stats), cfg.hasRAS = true →
       (predictCore cfg inst sn pc tid r st).isSome) ∧
    (∀ (cfg : Cfg) (inst : Inst) (sn pc tid : Nat) (r : PredResp)
       (st : Stats),
       (dirTaken0 inst r = false ∨
         (inst.isReturn = false ∧ inst.isCall = false)) →
       (predictCore cfg inst sn pc tid r st).isSome) ∧
    (∀ (cfg : Cfg) (sn tid : Nat) (s : BPState),
       (∀ e ∈ s.predHist tid, e.rasHistory = none) →
       (squash cfg sn tid s).isSome) ∧
    (∀ (cfg : Cfg) (sn ct : Nat) (tk : Bool) (tid : Nat) (r : SquashResp)
       (s : BPState) (fl : List PredictorHistory × List Event),
       cfg.hasRAS = false →
       flushLoop cfg tid sn (s.predHist tid) = some fl →
       (∀ f rest, fl.1 = f :: rest → f.seqNum = sn) →
       (squashMispredict cfg sn ct tk tid r s).isSome) := by
  refine ⟨?_, ?_, ?_, ?_, ?_⟩
  · intro cfg inst sn pc tid r st hras hT hrc
    cases hu : inst.isUncondCtrl <;> cases hret : inst.isReturn <;>
      cases hc : inst.isCall <;>
      simp_all [predictCore, targetStage, dirStage, rasStage, dirTaken0]
  · intro cfg inst sn pc tid r st hras
    cases hu : inst.isUncondCtrl <;> cases hret : inst.isReturn <;>
      cases hc : inst.isCall <;> cases hd : inst.isDirectCtrl <;>
      cases hip : cfg.hasIPred <;> cases hbt : r.btbTarget <;>
      cases hit : r.iTarget <;> cases hdt : r.dirTaken <;>
      simp_all [predictCore, targetStage, dirStage, rasStage, btbStage, indirectStage,
        dirTaken0]
  · intro cfg inst sn pc tid r st hcase
    rcases hcase with hnt | ⟨hret, hc⟩
    · cases hu : inst.isUncondCtrl <;>
        simp_all [predictCore, targetStage, dirStage, dirTaken0]
    · cases hu : inst.isUncondCtrl <;> cases hd : inst.isDirectCtrl <;>
        cases hip : cfg.hasIPred <;> cases hbt : r.btbTarget <;>
        cases hit : r.iTarget <;> cases hdt : r.dirTaken <;>
        cases hras : cfg.hasRAS <;>
        simp_all [predictCore, targetStage, dirStage, rasStage, btbStage, indirectStage,
          dirTaken0]
  · intro cfg sn tid s hclean
    have := flushLoop_total cfg tid sn (s.predHist tid) hclean
    rcases hfl : flushLoop cfg tid sn (s.predHist tid) with _ | fl
    · rw [hfl] at this; simp at this
    · simp [squash, hfl]
  · intro cfg sn ct tk tid r s fl hras hfl hfront
    simp only [squashMispredict, hfl]
    rcases hl : fl.1 with _ | ⟨f, rest⟩
    · simp
    · simp [hfront f rest hl]

end BPredUnit

namespace BPredUnit

/-- Events emitted by the RAS repair on the boundary record are quiet. -/
theorem boundaryRepair_quiet (cfg : Cfg) (ct : Nat) (tk : Bool)
    (tid : Nat) (r : SquashResp) (f : PredictorHistory) :
    ∀ e ∈ (boundaryRepair cfg ct tk tid r f).2, quietEvent e = true := by
  cases hras : cfg.hasRAS <;> cases htk : tk <;>
    cases hio : f.rasHistory <;> cases hret : f.inst.isReturn <;>
    cases hc : f.inst.isCall <;>
    simp [boundaryRepair, hras, htk, hio, hret, hc, quietEvent]

/-- A list of quiet events contains no BTB update. -/
theorem countP_btbUpd_zero (l : List Event)
    (hq : ∀ e ∈ l, quietEvent e = true) :
    l.countP Event.isBtbUpd = 0 :=
  List.countP_eq_zero.mpr fun e he => by
    simp [(quietEvent_class e (hq e he)).2.2.1]

/-- A list of quiet events contains no Misses probe. -/
theorem countP_probeM_zero (l : List Event)
    (hq : ∀ e ∈ l, quietEvent e = true) :
    l.countP Event.isProbeM = 0 :=
  List.countP_eq_zero.mpr fun e he => by
    simp [(quietEvent_class e (hq e he)).2.1]

/-- A list of quiet events contains no authoritative A update. -/
theorem countP_authA_zero (l : List Event)
    (hq : ∀ e ∈ l, quietEvent e = true) :
    l.countP Event.isAuthA = 0 :=
  List.countP_eq_zero.mpr fun e he => by
    simp [(quietEvent_class e (hq e he)).2.2.2.1]

/-- C2: in the misprediction squash, after the flush of all strictly
younger entries, an empty queue makes the call return silently, with no
change besides the condIncorrect bump, the Misses probe and the flush
itself; a non-empty queue whose front does not carry squashed_sn is a
fatal assertion failure (none), never a silent repair; a matching front
succeeds. -/
theorem mispredict_boundary_protocol (cfg : Cfg) (sn ct : Nat) (tk : Bool)
    (tid : Nat) (r : SquashResp) (s : BPState)
    (fl : List PredictorHistory × List Event)
    (hFl : flushLoop cfg tid sn (s.predHist tid) = some fl) :
    (fl.1 = [] →
      squashMispredict cfg sn ct tk tid r s =
        some { predHist := fun t => if t = tid then [] else s.predHist t,
               stats := { s.stats with
                           condIncorrect := s.stats.condIncorrect + 1 },
               events := (s.events ++ [Event.missesProbe 1]) ++ fl.2 }) ∧
    (∀ f rest, fl.1 = f :: rest → f.seqNum ≠ sn →
      squashMispredict cfg sn ct tk tid r s = none) ∧
    (∀ f rest, fl.1 = f :: rest → f.seqNum = sn →
      (squashMispredict cfg sn ct tk tid r s).isSome) := by
  refine ⟨?_, ?_, ?_⟩
  · intro hE
    simp [squashMispredict, hFl, hE]
  · intro f rest hC hne
    simp [squashMispredict, hFl, hC, hne]
  · intro f rest hC heq
    simp [squashMispredict, hFl, hC, heq]

/-- A one-entry queue at sequence number 5, used by several witnesses. -/
def ph5 : PredictorHistory :=
  { seqNum := 5, pc := 4096, predTaken := true, bpHistory := some 1,
    indirectHistory := none, rasHistory := none, tid := 0,
    inst := instCondCall, mispredict := false, wasIndirect := false,
    pushedRAS := false, target := 8192 }

/-- State holding exactly the record ph5 on thread 0. -/
def s5 : BPState :=
  { predHist := fun t => if t = 0 then [ph5] else [],
    stats := Stats.init, events := [] }

/-- Witness for C2 at concrete inputs: a matching boundary succeeds and a
mismatching boundary is fatal. -/
theorem mispredict_boundary_protocol_witness :
    (squashMispredict cfgRasOnly 5 8192 true 0 ⟨none, none⟩ s5).isSome ∧
    squashMispredict cfgRasOnly 6 8192 true 0 ⟨none, none⟩ s5 = none :=
  ⟨(mispredict_boundary_protocol cfgRasOnly 5 8192 true 0 ⟨none, none⟩ s5
      ([ph5], []) rfl).2.2 ph5 [] rfl rfl,
   (mispredict_boundary_protocol cfgRasOnly 6 8192 true 0 ⟨none, none⟩ s5
      ([ph5], []) rfl).2.1 ph5 [] rfl (by decide)⟩

/-- Witness for C10 at concrete inputs: a taken conditional call with the
RAS absent is fatal in predict; with the RAS present the same predict
succeeds; flush and misprediction squashes succeed with the RAS
absent. -/
theorem predict_requires_ras_witness :
    predictCore cfgBare instRet 30 4096 0 respMiss Stats.init = none ∧
    (predictCore cfgRasOnly instCondCall 20 4096 0 respHit
       Stats.init).isSome ∧
    (squash cfgBare 5 0 BPState.init).isSome ∧
    (squashMispredict cfgBare 5 8192 true 0 ⟨none, none⟩
       BPState.init).isSome :=
  ⟨predict_requires_ras.1 cfgBare instRet 30 4096 0 respMiss Stats.init
      rfl rfl rfl,
   predict_requires_ras.2.1 cfgRasOnly instCondCall 20 4096 0 respHit
      Stats.init rfl,
   predict_requires_ras.2.2.2.1 cfgBare 5 0 BPState.init (by simp [BPState.init]),
   predict_requires_ras.2.2.2.2 cfgBare 5 8192 true 0 ⟨none, none⟩
      BPState.init ([], []) rfl rfl (by intro f rest h; exact absurd h (by simp))⟩

end BPredUnit


namespace BPredUnit

/-- Statistics outcome of the boundary handling of the misprediction
squash, as a function of the resolution and the boundary record. -/
def mbStats (tk : Bool) (f : PredictorHistory) (st : Stats) : Stats :=
  let st0 := { st with condIncorrect := st.condIncorrect + 1 }
  let st1 := if f.rasHistory.isSome then
      { st0 with RASIncorrect := st0.RASIncorrect + 1 } else st0
  if tk then
    if f.wasIndirect then
      { st1 with indirectMispredicted := st1.indirectMispredicted + 1 }
    else { st1 with BTBUpdates := st1.BTBUpdates + 1 }
  else st1

/-- Event-trace outcome of the boundary handling of the misprediction
squash: probe, flush events, squashed A update, squashed C update when
present, RAS repair, and the BTB update when the resolution is taken and
the record was not indirect. -/
def mbEvents (cfg : Cfg) (sn ct : Nat) (tk : Bool) (tid : Nat)
    (r : SquashResp) (s : BPState) (f : PredictorHistory)
    (flev : List Event) : List Event :=
  s.events ++ [Event.missesProbe 1] ++ flev
    ++ [Event.aUpdate tid f.pc tk f.bpHistory true ct]
    ++ (if cfg.hasIPred then
          [Event.iUpdate tid sn f.pc true tk ct (getBranchType f.inst)
             f.indirectHistory]
        else [])
    ++ (boundaryRepair cfg ct tk tid r
          { f with predTaken := tk, target := ct, mispredict := true }).2
    ++ (if tk then
          (if f.wasIndirect then []
           else [Event.btbUpdate tid f.pc ct (getBranchType f.inst)])
        else [])

/-- Characterization of the misprediction squash when the flushed queue
has a front carrying squashed_sn. -/
theorem mispredict_boundary_eq (cfg : Cfg) (sn ct : Nat) (tk : Bool)
    (tid : Nat) (r : SquashResp) (s : BPState)
    (fl : List PredictorHistory × List Event) (f : PredictorHistory)
    (rest : List PredictorHistory)
    (hFl : flushLoop cfg tid sn (s.predHist tid) = some fl)
    (hC : fl.1 = f :: rest) (heq : f.seqNum = sn) :
    squashMispredict cfg sn ct tk tid r s =
      some { predHist := fun t => if t = tid then
                 (boundaryRepair cfg ct tk tid r
                   { f with predTaken := tk, target := ct,
                            mispredict := true }).1 :: rest
               else s.predHist t,
             stats := mbStats tk f s.stats,
             events := mbEvents cfg sn ct tk tid r s f fl.2 } := by
  cases htk : tk <;> cases hwi : f.wasIndirect <;>
    cases hrs : f.rasHistory.isSome <;>
    simp [squashMispredict, hFl, hC, heq, mbStats, mbEvents, htk, hwi, hrs,
      List.append_assoc]

end BPredUnit

namespace BPredUnit

/-- BTB update count in the boundary events: one exactly when the
resolution is taken and the record was not indirect. -/
theorem mbEvents_btbUpd_count (cfg : Cfg) (sn ct : Nat) (tk : Bool)
    (tid : Nat) (r : SquashResp) (s : BPState) (f : PredictorHistory)
    (flev : List Event) (hq : ∀ e ∈ flev, quietEvent e = true) :
    (mbEvents cfg sn ct tk tid r s f flev).countP Event.isBtbUpd =
      s.events.countP Event.isBtbUpd +
        (if tk && !f.wasIndirect then 1 else 0) := by
  have hfl0 : flev.countP Event.isBtbUpd = 0 := countP_btbUpd_zero _ hq
  have hrep0 : ∀ b g, (boundaryRepair cfg ct b tid r g).2.countP
      Event.isBtbUpd = 0 :=
    fun b g => countP_btbUpd_zero _ (boundaryRepair_quiet cfg ct b tid r g)
  cases htk : tk <;> cases hwi : f.wasIndirect <;>
    cases hip : cfg.hasIPred <;>
    simp [mbEvents, List.countP_append, List.countP_cons, hfl0, hrep0,
      htk, hwi, hip, Event.isBtbUpd]

/-- C5: on the boundary record of a misprediction squash, a taken
resolution of a non-indirect record bumps BTBUpdates by one and issues
exactly one B.update, with the record's pc, the corrected target and the
branch type; a taken resolution of an indirect record bumps
indirectMispredicted instead and issues no B.update; a not-taken
resolution changes neither counter and issues no B.update. -/
theorem mispredict_btb_vs_indirect (cfg : Cfg) (sn ct : Nat) (tk : Bool)
    (tid : Nat) (r : SquashResp) (s s1 : BPState)
    (fl : List PredictorHistory × List Event) (f : PredictorHistory)
    (rest : List PredictorHistory)
    (hFl : flushLoop cfg tid sn (s.predHist tid) = some fl)
    (hC : fl.1 = f :: rest) (heq : f.seqNum = sn)
    (hS : squashMispredict cfg sn ct tk tid r s = some s1) :
    (tk = true → f.wasIndirect = false →
      s1.stats.BTBUpdates = s.stats.BTBUpdates + 1 ∧
      s1.stats.indirectMispredicted = s.stats.indirectMispredicted ∧
      s1.events.countP Event.isBtbUpd = s.events.countP Event.isBtbUpd + 1 ∧
      Event.btbUpdate tid f.pc ct (getBranchType f.inst) ∈ s1.events) ∧
    (tk = true → f.wasIndirect = true →
      s1.stats.indirectMispredicted = s.stats.indirectMispredicted + 1 ∧
      s1.stats.BTBUpdates = s.stats.BTBUpdates ∧
      s1.events.countP Event.isBtbUpd = s.events.countP Event.isBtbUpd) ∧
    (tk = false →
      s1.stats.BTBUpdates = s.stats.BTBUpdates ∧
      s1.stats.indirectMispredicted = s.stats.indirectMispredicted ∧
      s1.events.countP Event.isBtbUpd = s.events.countP Event.isBtbUpd) := by
  rw [mispredict_boundary_eq cfg sn ct tk tid r s fl f rest hFl hC heq]
    at hS
  have hS1 := (Option.some.injEq _ _).mp hS
  subst hS1
  have hq := flushLoop_quiet cfg tid sn (s.predHist tid) fl hFl
  have hcnt := mbEvents_btbUpd_count cfg sn ct tk tid r s f fl.2 hq
  refine ⟨?_, ?_, ?_⟩
  · intro htk hwi
    subst htk
    refine ⟨?_, ?_, ?_, ?_⟩
    · cases hrs : f.rasHistory.isSome <;> simp [mbStats, hrs, hwi]
    · cases hrs : f.rasHistory.isSome <;> simp [mbStats, hrs, hwi]
    · simpa [hwi] using hcnt
    · simp [mbEvents, hwi]
  · intro htk hwi
    subst htk
    refine ⟨?_, ?_, ?_⟩
    · cases hrs : f.rasHistory.isSome <;> simp [mbStats, hrs, hwi]
    · cases hrs : f.rasHistory.isSome <;> simp [mbStats, hrs, hwi]
    · simpa [hwi] using hcnt
  · intro htk
    subst htk
    refine ⟨?_, ?_, ?_⟩
    · cases hrs : f.rasHistory.isSome <;> simp [mbStats, hrs]
    · cases hrs : f.rasHistory.isSome <;> simp [mbStats, hrs]
    · simpa using hcnt

end BPredUnit


namespace BPredUnit

/-- Taking one element past a list prefix. -/
theorem take_len_add_one (l : List Event) (x : Event) (X : List Event) :
    (l ++ (x :: X)).take (l.length + 1) = l ++ [x] := by
  rw [List.take_append]; simp

/-- Misses probe count in the boundary events: exactly one. -/
theorem mbEvents_probeM_count (cfg : Cfg) (sn ct : Nat) (tk : Bool)
    (tid : Nat) (r : SquashResp) (s : BPState) (f : PredictorHistory)
    (flev : List Event) (hq : ∀ e ∈ flev, quietEvent e = true) :
    (mbEvents cfg sn ct tk tid r s f flev).countP Event.isProbeM =
      s.events.countP Event.isProbeM + 1 := by
  have hfl0 : flev.countP Event.isProbeM = 0 := countP_probeM_zero _ hq
  have hrep0 : ∀ b g, (boundaryRepair cfg ct b tid r g).2.countP
      Event.isProbeM = 0 :=
    fun b g => countP_probeM_zero _ (boundaryRepair_quiet cfg ct b tid r g)
  cases htk : tk <;> cases hwi : f.wasIndirect <;>
    cases hip : cfg.hasIPred <;>
    simp [mbEvents, List.countP_append, List.countP_cons, hfl0, hrep0,
      htk, hwi, hip, Event.isProbeM]

/-- The boundary events start with the Misses probe right after the old
trace. -/
theorem mbEvents_take (cfg : Cfg) (sn ct : Nat) (tk : Bool) (tid : Nat)
    (r : SquashResp) (s : BPState) (f : PredictorHistory)
    (flev : List Event) :
    (mbEvents cfg sn ct tk tid r s f flev).take (s.events.length + 1) =
      s.events ++ [Event.missesProbe 1] := by
  have : mbEvents cfg sn ct tk tid r s f flev =
      s.events ++ (Event.missesProbe 1 ::
        (flev ++ [Event.aUpdate tid f.pc tk f.bpHistory true ct]
          ++ (if cfg.hasIPred then
                [Event.iUpdate tid sn f.pc true tk ct (getBranchType f.inst)
                   f.indirectHistory] else [])
          ++ (boundaryRepair cfg ct tk tid r
                { f with predTaken := tk, target := ct,
                         mispredict := true }).2
          ++ (if tk then
                (if f.wasIndirect then []
                 else [Event.btbUpdate tid f.pc ct (getBranchType f.inst)])
              else []))) := by
    simp [mbEvents, List.append_assoc]
  rw [this, take_len_add_one]


end BPredUnit

namespace BPredUnit

theorem rasStage_spec (cfg : Cfg) (inst : Inst) (pc tid : Nat)
    (r : PredResp) (ph : PredictorHistory) (st : Stats)
    (tgt : Nat) (ph1 : PredictorHistory) (st1 : Stats) (evs : List Event)
    (hS : rasStage cfg inst pc tid r ph st = some (tgt, ph1, st1, evs)) :
    (∀ e ∈ evs, quietEvent e = true) ∧ st1.lookups = st.lookups ∧
    ph1.seqNum = ph.seqNum := by
  cases hret : inst.isReturn <;> cases hc : inst.isCall <;>
    cases hras : cfg.hasRAS <;>
    simp_all [rasStage, quietEvent] <;>
    (obtain ⟨-, hph, hst, he⟩ := hS; subst hph; subst hst; subst he;
     simp [quietEvent])

theorem btbStage_spec (cfg : Cfg) (inst : Inst) (pc tid : Nat)
    (r : PredResp) (pt : Bool) (tgt0 : Nat) (ph : PredictorHistory)
    (st : Stats) (b : Bool) (t : Nat) (ph2 : PredictorHistory)
    (st2 : Stats) (evs : List Event)
    (hS : btbStage cfg inst pc tid r pt tgt0 ph st =
            some (b, t, ph2, st2, evs)) :
    (∀ e ∈ evs, quietEvent e = true) ∧ st2.lookups = st.lookups ∧
    ph2.seqNum = ph.seqNum := by
  cases hbt : r.btbTarget <;> cases hc : inst.isCall <;>
    cases hret : inst.isReturn <;> cases hu : inst.isUncondCtrl <;>
    cases hras : cfg.hasRAS <;>
    simp_all [btbStage, quietEvent] <;>
    (obtain ⟨-, -, hph, hst, he⟩ := hS; subst hph; subst hst; subst he;
     simp [quietEvent])

theorem indirectStage_spec (cfg : Cfg) (inst : Inst) (sn pc tid : Nat)
    (r : PredResp) (pt : Bool) (tgt0 : Nat) (ph : PredictorHistory)
    (st : Stats) (b : Bool) (t : Nat) (ph2 : PredictorHistory)
    (st2 : Stats) (evs : List Event)
    (hS : indirectStage cfg inst sn pc tid r pt tgt0 ph st =
            some (b, t, ph2, st2, evs)) :
    (∀ e ∈ evs, quietEvent e = true) ∧ st2.lookups = st.lookups ∧
    ph2.seqNum = ph.seqNum := by
  cases hit : r.iTarget <;> cases hc : inst.isCall <;>
    cases hret : inst.isReturn <;> cases hu : inst.isUncondCtrl <;>
    cases hras : cfg.hasRAS <;>
    simp_all [indirectStage, quietEvent] <;>
    (obtain ⟨-, -, hph, hst, he⟩ := hS; subst hph; subst hst; subst he;
     simp [quietEvent])

end BPredUnit

namespace BPredUnit

theorem targetStage_spec (cfg : Cfg) (inst : Inst) (sn pc tid : Nat)
    (r : PredResp) (pt : Bool) (ph0 : PredictorHistory) (st : Stats)
    (b : Bool) (t : Nat) (ph2 : PredictorHistory) (st2 : Stats)
    (evs : List Event)
    (hS : targetStage cfg inst sn pc tid r pt ph0 st =
            some (b, t, ph2, st2, evs)) :
    (∀ e ∈ evs, quietEvent e = true) ∧ st2.lookups = st.lookups ∧
    ph2.seqNum = ph0.seqNum := by
  cases hpt : pt
  · simp only [targetStage, hpt, Bool.false_eq_true, if_false,
      Option.some.injEq, Prod.mk.injEq] at hS
    obtain ⟨-, -, hph, hst, he⟩ := hS
    subst hph; subst hst; subst he
    simp
  · simp only [targetStage, hpt, if_true] at hS
    rcases hR : rasStage cfg inst pc tid r ph0 st
        with _ | ⟨tgt1, ph1, st1, evR⟩ <;> rw [hR] at hS
    · simp at hS
    · have hRs := rasStage_spec cfg inst pc tid r ph0 st tgt1 ph1 st1
        evR hR
      cases hret : inst.isReturn
      · simp only [hret, Bool.not_false, if_true] at hS
        by_cases hdi : (inst.isDirectCtrl || !cfg.hasIPred) = true
        · rw [if_pos hdi] at hS
          rcases hB : btbStage cfg inst pc tid r true tgt1 ph1 st1
              with _ | ⟨b3, t3, ph3, st3, evB⟩ <;> rw [hB] at hS
          · simp at hS
          · have hBs := btbStage_spec cfg inst pc tid r true tgt1 ph1
              st1 b3 t3 ph3 st3 evB hB
            simp only [Option.some.injEq, Prod.mk.injEq] at hS
            obtain ⟨-, -, hph, hst, he⟩ := hS
            subst hph; subst hst; subst he
            refine ⟨?_, by rw [hBs.2.1, hRs.2.1],
              by rw [hBs.2.2, hRs.2.2]⟩
            intro e he
            rcases List.mem_append.mp he with h | h
            · exact hRs.1 e h
            · exact hBs.1 e h
        · rw [if_neg hdi] at hS
          rcases hB : indirectStage cfg inst sn pc tid r true tgt1 ph1 st1
              with _ | ⟨b3, t3, ph3, st3, evB⟩ <;> rw [hB] at hS
          · simp at hS
          · have hBs := indirectStage_spec cfg inst sn pc tid r true tgt1
              ph1 st1 b3 t3 ph3 st3 evB hB
            simp only [Option.some.injEq, Prod.mk.injEq] at hS
            obtain ⟨-, -, hph, hst, he⟩ := hS
            subst hph; subst hst; subst he
            refine ⟨?_, by rw [hBs.2.1, hRs.2.1],
              by rw [hBs.2.2, hRs.2.2]⟩
            intro e he
            rcases List.mem_append.mp he with h | h
            · exact hRs.1 e h
            · exact hBs.1 e h
      · simp only [hret, Bool.not_true, Bool.false_eq_true, if_false,
          Option.some.injEq, Prod.mk.injEq] at hS
        obtain ⟨-, -, hph, hst, he⟩ := hS
        subst hph; subst hst; subst he
        exact ⟨hRs.1, hRs.2.1, hRs.2.2⟩

theorem dirStage_spec (inst : Inst) (pc tid : Nat) (r : PredResp)
    (st : Stats) :
    (∀ e ∈ (dirStage inst pc tid r st).2.2.2, quietEvent e = true) ∧
    (dirStage inst pc tid r st).2.2.1.lookups = st.lookups := by
  cases hu : inst.isUncondCtrl <;> simp [dirStage, hu, quietEvent]

end BPredUnit

namespace BPredUnit

theorem countP_probeB_zero (l : List Event)
    (hq : ∀ e ∈ l, quietEvent e = true) :
    l.countP Event.isProbeB = 0 :=
  List.countP_eq_zero.mpr fun e he => by
    simp [(quietEvent_class e (hq e he)).1]

theorem predict_events_lookups (cfg : Cfg) (inst : Inst) (sn pc tid : Nat) (r : PredResp)
    (st : Stats) (b : Bool) (pc1 : Nat) (ph : PredictorHistory)
    (evs : List Event) (st1 : Stats)
    (hS : predictCore cfg inst sn pc tid r st = some (b, pc1, ph, evs, st1)) :
    evs.head? = some (Event.branchesProbe 1) ∧
    evs.countP Event.isProbeB = 1 ∧ st1.lookups = st.lookups + 1 := by
  unfold predictCore at hS
  simp only [] at hS
  rcases hdir : dirStage inst pc tid r { st with lookups := st.lookups + 1 }
      with ⟨pt0, bpTok, stD, evD⟩
  rw [hdir] at hS
  rcases hT : targetStage cfg inst sn pc tid r pt0
      (PredictorHistory.init sn pc pt0 bpTok none tid inst) stD
      with _ | ⟨b2, tgt2, ph2, stF, evT⟩ <;> rw [hT] at hS
  · simp at hS
  · have hTs := targetStage_spec cfg inst sn pc tid r pt0
      (PredictorHistory.init sn pc pt0 bpTok none tid inst) stD b2 tgt2
      ph2 stF evT hT
    have hDs := dirStage_spec inst pc tid r
      { st with lookups := st.lookups + 1 }
    rw [hdir] at hDs
    simp only at hDs
    simp only [Option.some.injEq, Prod.mk.injEq] at hS
    obtain ⟨hb, hpc, hph, hevs, hst⟩ := hS
    subst hevs; subst hst
    have c1 : evD.countP Event.isProbeB = 0 := countP_probeB_zero evD hDs.1
    have c2 : evT.countP Event.isProbeB = 0 := countP_probeB_zero evT hTs.1
    refine ⟨rfl, ?_, ?_⟩
    · cases hip : cfg.hasIPred <;>
        simp [hip, List.countP_append, List.countP_cons, c1, c2,
          Event.isProbeB]
    · rw [hTs.2.1, hDs.2]

end BPredUnit

namespace BPredUnit

/-- C9: every successful predict call puts the Branches probe with count
one first in its event trace, fires it exactly once, and bumps lookups
by one; every successful misprediction squash bumps condIncorrect by
exactly one and fires the Misses probe with count one exactly once,
immediately at entry, even when the flushed queue is empty and for any
branch kind. -/
theorem probes_fire_once :
    (∀ (cfg : Cfg) (inst : Inst) (sn pc tid : Nat) (r : PredResp)
       (st : Stats) (b : Bool) (pc1 : Nat) (ph : PredictorHistory)
       (evs : List Event) (st1 : Stats),
       predictCore cfg inst sn pc tid r st = some (b, pc1, ph, evs, st1) →
       evs.head? = some (Event.branchesProbe 1) ∧
       evs.countP Event.isProbeB = 1 ∧ st1.lookups = st.lookups + 1) ∧
    (∀ (cfg : Cfg) (sn ct : Nat) (tk : Bool) (tid : Nat) (r : SquashResp)
       (s s1 : BPState),
       squashMispredict cfg sn ct tk tid r s = some s1 →
       s1.stats.condIncorrect = s.stats.condIncorrect + 1 ∧
       s1.events.countP Event.isProbeM =
         s.events.countP Event.isProbeM + 1 ∧
       s1.events.take (s.events.length + 1) =
         s.events ++ [Event.missesProbe 1]) := by
  constructor
  · intro cfg inst sn pc tid r st b pc1 ph evs st1 hS
    exact predict_events_lookups cfg inst sn pc tid r st b pc1 ph evs
      st1 hS
  · intro cfg sn ct tk tid r s s1 hS
    rcases hFl : flushLoop cfg tid sn (s.predHist tid) with _ | fl
    · rw [squashMispredict, hFl] at hS; exact absurd hS (by simp)
    · have hq := flushLoop_quiet cfg tid sn (s.predHist tid) fl hFl
      have hflM : fl.2.countP Event.isProbeM = 0 := countP_probeM_zero _ hq
      rcases hl : fl.1 with _ | ⟨f, rest⟩
      · have hEq := (mispredict_boundary_protocol cfg sn ct tk tid r s fl
          hFl).1 hl
        rw [hEq] at hS
        simp only [Option.some.injEq] at hS
        subst hS
        refine ⟨rfl, ?_, ?_⟩
        · simp [List.countP_append, List.countP_cons, hflM, Event.isProbeM]
        · rw [List.append_assoc]
          exact take_len_add_one s.events (Event.missesProbe 1) fl.2
      · by_cases heq : f.seqNum = sn
        · rw [mispredict_boundary_eq cfg sn ct tk tid r s fl f rest hFl hl
            heq] at hS
          simp only [Option.some.injEq] at hS
          subst hS
          refine ⟨?_, ?_, ?_⟩
          · cases hrs : f.rasHistory.isSome <;> cases htk : tk <;>
              cases hwi : f.wasIndirect <;> simp [mbStats, hrs, htk, hwi]
          · exact mbEvents_probeM_count cfg sn ct tk tid r s f fl.2 hq
          · exact mbEvents_take cfg sn ct tk tid r s f fl.2
        · have hNe := (mispredict_boundary_protocol cfg sn ct tk tid r s fl
            hFl).2.1 f rest hl heq
          rw [hNe] at hS; exact absurd hS (by simp)

end BPredUnit

namespace BPredUnit

/-- Result state of the concrete misprediction squash used by witnesses. -/
def c5s : BPState :=
  (squashMispredict cfgRasOnly 5 8192 true 0 ⟨none, none⟩ s5).getD
    BPState.init

/-- Witness for C5 at a concrete input: a taken non-indirect boundary. -/
theorem mispredict_btb_vs_indirect_witness :
    (true = true → ph5.wasIndirect = false →
      c5s.stats.BTBUpdates = s5.stats.BTBUpdates + 1 ∧
      c5s.stats.indirectMispredicted = s5.stats.indirectMispredicted ∧
      c5s.events.countP Event.isBtbUpd =
        s5.events.countP Event.isBtbUpd + 1 ∧
      Event.btbUpdate 0 ph5.pc 8192 (getBranchType ph5.inst) ∈
        c5s.events) ∧
    (true = true → ph5.wasIndirect = true →
      c5s.stats.indirectMispredicted =
        s5.stats.indirectMispredicted + 1 ∧
      c5s.stats.BTBUpdates = s5.stats.BTBUpdates ∧
      c5s.events.countP Event.isBtbUpd = s5.events.countP Event.isBtbUpd) ∧
    (true = false →
      c5s.stats.BTBUpdates = s5.stats.BTBUpdates ∧
      c5s.stats.indirectMispredicted = s5.stats.indirectMispredicted ∧
      c5s.events.countP Event.isBtbUpd = s5.events.countP Event.isBtbUpd) :=
  mispredict_btb_vs_indirect cfgRasOnly 5 8192 true 0 ⟨none, none⟩ s5 c5s
    ([ph5], []) ph5 [] rfl rfl rfl rfl

/-- Witness for C9 at concrete inputs: the probe conclusions hold for a
concrete predict and a concrete misprediction squash. -/
theorem probes_fire_once_witness :
    (c3out.2.2.2.1.head? = some (Event.branchesProbe 1) ∧
     c3out.2.2.2.1.countP Event.isProbeB = 1 ∧
     c3out.2.2.2.2.lookups = Stats.init.lookups + 1) ∧
    (c5s.stats.condIncorrect = s5.stats.condIncorrect + 1 ∧
     c5s.events.countP Event.isProbeM =
       s5.events.countP Event.isProbeM + 1 ∧
     c5s.events.take (s5.events.length + 1) =
       s5.events ++ [Event.missesProbe 1]) :=
  ⟨probes_fire_once.1 cfgRasOnly instCondCall 20 4096 0 respHit Stats.init
     c3out.1 c3out.2.1 c3out.2.2.1 c3out.2.2.2.1 c3out.2.2.2.2 rfl,
   probes_fire_once.2 cfgRasOnly 5 8192 true 0 ⟨none, none⟩ s5 c5s rfl⟩

end BPredUnit

namespace BPredUnit

/-- The record pushed by predict carries the call's sequence number. -/
theorem predictCore_record (cfg : Cfg) (inst : Inst) (sn pc tid : Nat)
    (r : PredResp) (st : Stats) (b : Bool) (pc1 : Nat)
    (ph : PredictorHistory) (evs : List Event) (st1 : Stats)
    (hS : predictCore cfg inst sn pc tid r st = some (b, pc1, ph, evs, st1)) :
    ph.seqNum = sn := by
  unfold predictCore at hS
  simp only [] at hS
  rcases hdir : dirStage inst pc tid r { st with lookups := st.lookups + 1 }
      with ⟨pt0, bpTok, stD, evD⟩
  rw [hdir] at hS
  rcases hT : targetStage cfg inst sn pc tid r pt0
      (PredictorHistory.init sn pc pt0 bpTok none tid inst) stD
      with _ | ⟨b2, tgt2, ph2, stF, evT⟩ <;> rw [hT] at hS
  · simp at hS
  · have hTs := targetStage_spec cfg inst sn pc tid r pt0
      (PredictorHistory.init sn pc pt0 bpTok none tid inst) stD b2 tgt2
      ph2 stF evT hT
    simp only [Option.some.injEq, Prod.mk.injEq] at hS
    obtain ⟨-, -, hph, -, -⟩ := hS
    subst hph
    simpa [PredictorHistory.init] using hTs.2.2

/-- Structure of a successful predict step: one record with the call's
sequence number is pushed on the front of the thread's queue, other
queues are untouched. -/
theorem step_predict_hist (cfg : Cfg) (s s1 : BPState) (inst : Inst)
    (sn pc tid : Nat) (r : PredResp)
    (hS : step cfg s (Op.predict inst sn pc tid r) = some s1) :
    ∃ ph, ph.seqNum = sn ∧
      (∀ t, s1.predHist t =
        if t = tid then ph :: s.predHist t else s.predHist t) := by
  simp only [step, predict] at hS
  rcases hP : predictCore cfg inst sn pc tid r s.stats
      with _ | ⟨b, pcOut, ph, evs, st⟩ <;> rw [hP] at hS
  · simp at hS
  · simp only [Option.some.injEq] at hS
    subst hS
    exact ⟨ph, predictCore_record cfg inst sn pc tid r s.stats b pcOut ph
      evs st hP, fun t => rfl⟩

/-- The commit loop is dropWhile and takeWhile of the given (reversed)
queue. -/
theorem commitLoop_eq (cfg : Cfg) (tid d : Nat) :
    ∀ l : List PredictorHistory,
      commitLoop cfg tid d l =
        (l.dropWhile (fun h => h.seqNum ≤ d),
         ((l.takeWhile (fun h => h.seqNum ≤ d)).map
            (commitEvents cfg tid)).flatten) := by
  intro l
  induction l with
  | nil => simp [commitLoop]
  | cons h t ih =>
    by_cases hle : h.seqNum ≤ d
    · simp [commitLoop, hle, ih, List.dropWhile, List.takeWhile]
    · simp [commitLoop, hle, List.dropWhile, List.takeWhile]

/-- The flush loop keeps the dropWhile of the queue. -/
theorem flushLoop_fst (cfg : Cfg) (tid sn : Nat) :
    ∀ (l : List PredictorHistory) fl,
      flushLoop cfg tid sn l = some fl →
      fl.1 = l.dropWhile (fun h => sn < h.seqNum) := by
  intro l
  induction l with
  | nil => intro fl hfl; simp [flushLoop] at hfl; subst hfl; simp
  | cons h t ih =>
    intro fl hfl
    simp only [flushLoop] at hfl
    by_cases hlt : sn < h.seqNum
    · simp only [if_pos hlt] at hfl
      rcases hcond : (h.rasHistory.isSome && !cfg.hasRAS) with _ | _
      · rw [hcond] at hfl
        simp only [Bool.false_eq_true, if_false] at hfl
        rcases hrec : flushLoop cfg tid sn t with _ | fl1
        · rw [hrec] at hfl; exact absurd hfl (by simp)
        · rw [hrec] at hfl
          simp only [Option.some.injEq] at hfl
          subst hfl
          simp [List.dropWhile, hlt, ih fl1 hrec]
      · rw [hcond] at hfl; exact absurd hfl (by simp)
    · simp only [if_neg hlt, Option.some.injEq] at hfl
      subst hfl
      simp [List.dropWhile, hlt]

end BPredUnit

namespace BPredUnit

/-- The call is a predict on the given thread. -/
def isPredictOn (tid : Nat) : Op → Prop := fun op =>
  match op with
  | .predict _ _ _ t _ => t = tid
  | _ => False

/-- Sequence number of a predict call (0 for the other calls). -/
def opSN : Op → Nat := fun op =>
  match op with
  | .predict _ sn _ _ _ => sn
  | _ => 0

/-- When every entry of the thread's queue is old enough, update drains
the queue completely and commits its records back to front. -/
theorem update_drain (cfg : Cfg) (d tid : Nat) (s : BPState)
    (hall : ∀ e ∈ s.predHist tid, e.seqNum ≤ d) :
    update cfg d tid s =
      { predHist := fun t => if t = tid then [] else s.predHist t,
        stats := s.stats,
        events := s.events ++
          ((s.predHist tid).reverse.map (commitEvents cfg tid)).flatten } := by
  unfold update
  rw [commitLoop_eq]
  have h1 : (s.predHist tid).reverse.dropWhile
      (fun h => h.seqNum ≤ d) = [] := by
    refine List.dropWhile_eq_nil_iff.mpr ?_
    intro a ha
    simpa using hall a (List.mem_reverse.mp ha)
  have h2 : (s.predHist tid).reverse.takeWhile
      (fun h => h.seqNum ≤ d) = (s.predHist tid).reverse := by
    refine List.takeWhile_eq_self_iff.mpr ?_
    intro a ha
    simpa using hall a (List.mem_reverse.mp ha)
  simp [h1, h2]

/-- Running predict calls on one thread stacks their records, youngest
first, and touches no other queue. -/
theorem run_predicts (cfg : Cfg) (tid : Nat) :
    ∀ (ops : List Op) (s0 s1 : BPState),
      (∀ op ∈ ops, isPredictOn tid op) →
      run cfg s0 ops = some s1 →
      ((s1.predHist tid).map (fun e => e.seqNum) =
        (ops.map opSN).reverse ++
          (s0.predHist tid).map (fun e => e.seqNum)) ∧
      (∀ t, t ≠ tid → s1.predHist t = s0.predHist t) := by
  intro ops
  induction ops with
  | nil =>
    intro s0 s1 _ hrun
    simp only [run, Option.some.injEq] at hrun
    subst hrun
    simp
  | cons op ops ih =>
    intro s0 s1 hp hrun
    simp only [run] at hrun
    rcases hstep : step cfg s0 op with _ | s2 <;> rw [hstep] at hrun
    · exact absurd hrun (by simp)
    · have hop := hp op (by simp)
      rcases op with ⟨inst, sn, pc, t0, r⟩ | ⟨d, t0⟩ | ⟨sn, t0⟩ |
          ⟨sn, ct, tk, t0, r⟩
      · have ht0 : t0 = tid := hop
        subst ht0
        obtain ⟨ph, hsn, hhist⟩ :=
          step_predict_hist cfg s0 s2 inst sn pc t0 r hstep
        have hih := ih s2 s1 (fun o ho => hp o (by simp [ho])) hrun
        constructor
        · rw [hih.1, hhist t0]
          simp [hsn, opSN]
        · intro t ht
          rw [hih.2 t ht, hhist t]
          simp [ht]
      · exact absurd hop (by simp [isPredictOn])
      · exact absurd hop (by simp [isPredictOn])
      · exact absurd hop (by simp [isPredictOn])

/-- Counts of the three kinds of commit calls in the batch committing a
whole list of records: one authoritative A update per record, one
C.commit per record when C is present, one D.commit per record when D is
present. -/
theorem flatten_commit_counts (cfg : Cfg) (tid : Nat) :
    ∀ l : List PredictorHistory,
      ((l.map (commitEvents cfg tid)).flatten.countP Event.isAuthA
          = l.length) ∧
      ((l.map (commitEvents cfg tid)).flatten.countP Event.isICommit
          = if cfg.hasIPred then l.length else 0) ∧
      ((l.map (commitEvents cfg tid)).flatten.countP Event.isRasCommit
          = if cfg.hasRAS then l.length else 0) := by
  intro l
  induction l with
  | nil => simp
  | cons h t ih =>
    have hone : (commitEvents cfg tid h).countP Event.isAuthA = 1 ∧
        (commitEvents cfg tid h).countP Event.isICommit =
          (if cfg.hasIPred then 1 else 0) ∧
        (commitEvents cfg tid h).countP Event.isRasCommit =
          (if cfg.hasRAS then 1 else 0) := by
      cases hip : cfg.hasIPred <;> cases hras : cfg.hasRAS <;>
        simp [commitEvents, hip, hras, List.countP_cons,
          List.countP_append, Event.isAuthA, Event.isICommit,
          Event.isRasCommit]
    cases hip : cfg.hasIPred <;> cases hras : cfg.hasRAS <;>
      simp_all [List.countP_append, Nat.add_comm]

end BPredUnit

namespace BPredUnit

/-- C6: from an empty thread queue, N predict calls with strictly
increasing sequence numbers followed by one update with done_sn at least
the largest of them leave the queue empty and issue exactly N
authoritative (squashed = false) updates to A, one per record in
oldest-first order (the batch is the reversed queue, back to front),
plus one C.commit per record when C is present and one D.commit per
record when D is present. -/
theorem commit_drains (cfg : Cfg) (tid : Nat) (ops : List Op)
    (s0 s1 : BPState) (last_sn : Nat)
    (hPred : ∀ op ∈ ops, isPredictOn tid op)
    (hInc : List.Chain' (fun a b => opSN a < opSN b) ops)
    (hLe : ∀ op ∈ ops, opSN op ≤ last_sn)
    (hEmpty : s0.predHist tid = [])
    (hRun : run cfg s0 ops = some s1) :
    (s1.predHist tid).length = ops.length ∧
    update cfg last_sn tid s1 =
      { predHist := fun t => if t = tid then [] else s1.predHist t,
        stats := s1.stats,
        events := s1.events ++
          ((s1.predHist tid).reverse.map (commitEvents cfg tid)).flatten } ∧
    ((s1.predHist tid).reverse.map
        (commitEvents cfg tid)).flatten.countP Event.isAuthA = ops.length ∧
    ((s1.predHist tid).reverse.map
        (commitEvents cfg tid)).flatten.countP Event.isICommit =
      (if cfg.hasIPred then ops.length else 0) ∧
    ((s1.predHist tid).reverse.map
        (commitEvents cfg tid)).flatten.countP Event.isRasCommit =
      (if cfg.hasRAS then ops.length else 0) := by
  have hmap := (run_predicts cfg tid ops s0 s1 hPred hRun).1
  rw [hEmpty] at hmap
  simp only [List.map_nil, List.append_nil] at hmap
  have hlen : (s1.predHist tid).length = ops.length := by
    have := congrArg List.length hmap
    simpa using this
  have hall : ∀ e ∈ s1.predHist tid, e.seqNum ≤ last_sn := by
    intro e he
    have hmem : e.seqNum ∈ (ops.map opSN).reverse := by
      rw [← hmap]
      exact List.mem_map_of_mem (fun x => x.seqNum) he
    rw [List.mem_reverse] at hmem
    obtain ⟨op, hop, hsn⟩ := List.mem_map.mp hmem
    rw [← hsn]
    exact hLe op hop
  have hcnt := flatten_commit_counts cfg tid (s1.predHist tid).reverse
  refine ⟨hlen, update_drain cfg last_sn tid s1 hall, ?_, ?_, ?_⟩
  · rw [hcnt.1]; simpa using hlen
  · rw [hcnt.2.1]; cases cfg.hasIPred <;> simp [hlen]
  · rw [hcnt.2.2]; cases cfg.hasRAS <;> simp [hlen]

end BPredUnit

/-- Two predict calls on thread 0 with increasing sequence numbers. -/
def c6ops : List BPredUnit.Op :=
  [BPredUnit.Op.predict instJmp 10 4096 0 respHit,
   BPredUnit.Op.predict instJmp 11 4096 0 respHit]

/-- State after the two predict calls of the C6 witness. -/
def c6s1 : BPState :=
  (BPredUnit.run cfgBoth BPState.init c6ops).getD BPState.init

namespace BPredUnit

/-- Witness for C6 at a concrete input: two predicts then a full commit. -/
theorem commit_drains_witness :
    (c6s1.predHist 0).length = c6ops.length ∧
    update cfgBoth 11 0 c6s1 =
      { predHist := fun t => if t = 0 then [] else c6s1.predHist t,
        stats := c6s1.stats,
        events := c6s1.events ++
          ((c6s1.predHist 0).reverse.map (commitEvents cfgBoth 0)).flatten } ∧
    ((c6s1.predHist 0).reverse.map
        (commitEvents cfgBoth 0)).flatten.countP Event.isAuthA =
      c6ops.length ∧
    ((c6s1.predHist 0).reverse.map
        (commitEvents cfgBoth 0)).flatten.countP Event.isICommit =
      (if cfgBoth.hasIPred then c6ops.length else 0) ∧
    ((c6s1.predHist 0).reverse.map
        (commitEvents cfgBoth 0)).flatten.countP Event.isRasCommit =
      (if cfgBoth.hasRAS then c6ops.length else 0) :=
  commit_drains cfgBoth 0 c6ops BPState.init c6s1 11
    (by intro op hop; fin_cases hop <;> rfl)
    (by constructor <;> simp [c6ops, opSN])
    (by intro op hop; fin_cases hop <;> simp [opSN])
    rfl rfl

end BPredUnit

namespace BPredUnit

/-- Sequence numbers of a queue, front to back. -/
def seqNumsOf (l : List PredictorHistory) : List Nat :=
  l.map (fun e => e.seqNum)

/-- Strictly decreasing from front to back. -/
def sortedDesc (l : List Nat) : Prop :=
  List.Pairwise (fun a b => b < a) l

/-- The sequence number of a predict call is fresh for its thread's
queue in the given state. -/
def predictFresh (s : BPState) : Op → Prop := fun op =>
  match op with
  | .predict _ sn _ tid _ => ∀ e ∈ s.predHist tid, e.seqNum < sn
  | _ => True

/-- Two calls in program order use increasing sequence numbers when both
are predicts on the same thread. -/
def opFreshRel : Op → Op → Prop := fun o1 o2 =>
  match o1, o2 with
  | .predict _ sn1 _ t1 _, .predict _ sn2 _ t2 _ => t1 = t2 → sn1 < sn2
  | _, _ => True

/-- The RAS repair never changes the boundary record's sequence number. -/
theorem boundaryRepair_seqNum (cfg : Cfg) (ct : Nat) (tk : Bool)
    (tid : Nat) (r : SquashResp) (f : PredictorHistory) :
    (boundaryRepair cfg ct tk tid r f).1.seqNum = f.seqNum := by
  cases hras : cfg.hasRAS <;> cases htk : tk <;>
    cases hio : f.rasHistory <;> cases hret : f.inst.isReturn <;>
    cases hc : f.inst.isCall <;>
    simp [boundaryRepair, hras, htk, hio, hret, hc]

/-- Reversing, dropping a prefix and reversing back yields a sublist. -/
theorem reverse_dropWhile_reverse_sublist {α : Type}
    (p : α → Bool) (l : List α) :
    ((l.reverse.dropWhile p).reverse).Sublist l := by
  have h1 : (l.reverse.dropWhile p).Sublist l.reverse :=
    List.dropWhile_sublist p
  have h2 := h1.reverse
  rwa [List.reverse_reverse] at h2

/-- The commit engine only removes entries: every queue's sequence-number
list shrinks to a sublist. -/
theorem update_sublist (cfg : Cfg) (d tid : Nat) (s : BPState) :
    ∀ t, (seqNumsOf ((update cfg d tid s).predHist t)).Sublist
      (seqNumsOf (s.predHist t)) := by
  intro t
  unfold update
  rw [commitLoop_eq]
  by_cases ht : t = tid
  · subst ht
    simp only [if_pos rfl, seqNumsOf]
    exact (reverse_dropWhile_reverse_sublist _ _).map _
  · simp [ht, seqNumsOf]

/-- The flush engine only removes entries. -/
theorem squash_sublist (cfg : Cfg) (sn tid : Nat) (s s1 : BPState)
    (hS : squash cfg sn tid s = some s1) :
    ∀ t, (seqNumsOf (s1.predHist t)).Sublist
      (seqNumsOf (s.predHist t)) := by
  intro t
  rcases hFl : flushLoop cfg tid sn (s.predHist tid) with _ | fl <;>
    rw [squash, hFl] at hS
  · exact absurd hS (by simp)
  · simp only [Option.some.injEq] at hS
    subst hS
    by_cases ht : t = tid
    · subst ht
      simp only [if_pos rfl, seqNumsOf]
      rw [flushLoop_fst cfg t sn (s.predHist t) fl hFl]
      exact (List.dropWhile_sublist _).map _
    · simp [ht, seqNumsOf]

/-- The misprediction squash removes strictly younger entries and keeps
the boundary record's sequence number: every queue's sequence-number
list shrinks to a sublist. -/
theorem mispredict_sublist (cfg : Cfg) (sn ct : Nat) (tk : Bool)
    (tid : Nat) (r : SquashResp) (s s1 : BPState)
    (hS : squashMispredict cfg sn ct tk tid r s = some s1) :
    ∀ t, (seqNumsOf (s1.predHist t)).Sublist
      (seqNumsOf (s.predHist t)) := by
  intro t
  rcases hFl : flushLoop cfg tid sn (s.predHist tid) with _ | fl
  · rw [squashMispredict, hFl] at hS; exact absurd hS (by simp)
  · have hfst := flushLoop_fst cfg tid sn (s.predHist tid) fl hFl
    rcases hl : fl.1 with _ | ⟨f, rest⟩
    · have hEq := (mispredict_boundary_protocol cfg sn ct tk tid r s fl
        hFl).1 hl
      rw [hEq] at hS
      simp only [Option.some.injEq] at hS
      subst hS
      by_cases ht : t = tid
      · subst ht; simp [seqNumsOf]
      · simp [ht, seqNumsOf]
    · by_cases heq : f.seqNum = sn
      · rw [mispredict_boundary_eq cfg sn ct tk tid r s fl f rest hFl hl
          heq] at hS
        simp only [Option.some.injEq] at hS
        subst hS
        by_cases ht : t = tid
        · subst ht
          simp only [eq_self_iff_true, if_true, seqNumsOf, List.map_cons]
          rw [boundaryRepair_seqNum]
          have hfr : (f :: rest).map (fun e => e.seqNum) =
              ((s.predHist t).dropWhile
                (fun h => sn < h.seqNum)).map (fun e => e.seqNum) := by
            rw [← hfst, hl]
          simp only [List.map_cons] at hfr
          have hsub : ((s.predHist t).dropWhile
              (fun h => sn < h.seqNum)).map (fun e => e.seqNum)
                |>.Sublist ((s.predHist t).map (fun e => e.seqNum)) :=
            (List.dropWhile_sublist _).map _
          simpa [← hfr] using hsub
        · simp [ht, seqNumsOf]
      · have hNe := (mispredict_boundary_protocol cfg sn ct tk tid r s fl
          hFl).2.1 f rest hl heq
        rw [hNe] at hS; exact absurd hS (by simp)

end BPredUnit

namespace BPredUnit

/-- One step preserves the strictly-decreasing order of every queue,
provided a predict uses a fresh sequence number. -/
theorem step_sorted_preserved (cfg : Cfg) (s : BPState) (op : Op)
    (s1 : BPState) (hS : step cfg s op = some s1)
    (hF : predictFresh s op)
    (hsort : ∀ t, sortedDesc (seqNumsOf (s.predHist t))) :
    ∀ t, sortedDesc (seqNumsOf (s1.predHist t)) := by
  intro t
  rcases op with ⟨inst, sn, pc, tid, r⟩ | ⟨d, tid⟩ | ⟨sn, tid⟩ |
      ⟨sn, ct, tk, tid, r⟩
  · obtain ⟨ph, hsn, hhist⟩ :=
      step_predict_hist cfg s s1 inst sn pc tid r hS
    rw [hhist t]
    by_cases ht : t = tid
    · subst ht
      simp only [if_pos rfl, seqNumsOf, List.map_cons]
      refine List.Pairwise.cons ?_ (hsort t)
      intro b hb
      obtain ⟨e, he, hbe⟩ := List.mem_map.mp hb
      have h1 : e.seqNum < ph.seqNum := by rw [hsn]; exact hF e he
      simpa [← hbe] using h1
    · simp only [if_neg ht]
      exact hsort t
  · have hsub := update_sublist cfg d tid s t
    have hstep : s1 = update cfg d tid s := by
      simpa [step] using hS.symm
    subst hstep
    exact (hsort t).sublist hsub
  · have hsub := squash_sublist cfg sn tid s s1 (by simpa [step] using hS) t
    exact (hsort t).sublist hsub
  · have hsub := mispredict_sublist cfg sn ct tk tid r s s1
      (by simpa [step] using hS) t
    exact (hsort t).sublist hsub

/-- A sequence number present in a queue that shrank to a sublist was
already present in the larger queue. -/
theorem bound_transfer {s2 s : BPState} {t : Nat}
    (hsub : (seqNumsOf (s2.predHist t)).Sublist
      (seqNumsOf (s.predHist t)))
    {e : PredictorHistory} (he : e ∈ s2.predHist t) :
    ∃ e1 ∈ s.predHist t, e1.seqNum = e.seqNum := by
  have hm : e.seqNum ∈ seqNumsOf (s.predHist t) :=
    hsub.subset (List.mem_map_of_mem (fun x => x.seqNum) he)
  obtain ⟨e1, he1, heq⟩ := List.mem_map.mp hm
  exact ⟨e1, he1, heq⟩

/-- Generalized run invariant for the ordering property. -/
theorem run_sorted_aux (cfg : Cfg) :
    ∀ (ops : List Op) (s s1 : BPState),
      List.Pairwise opFreshRel ops →
      run cfg s ops = some s1 →
      (∀ t, sortedDesc (seqNumsOf (s.predHist t))) →
      (∀ t e, e ∈ s.predHist t → ∀ op ∈ ops,
        ∀ inst sn pc r, op = Op.predict inst sn pc t r → e.seqNum < sn) →
      ∀ t, sortedDesc (seqNumsOf (s1.predHist t)) := by
  intro ops
  induction ops with
  | nil =>
    intro s s1 _ hrun hsort _
    simp only [run, Option.some.injEq] at hrun
    subst hrun
    exact hsort
  | cons op ops ih =>
    intro s s1 hpw hrun hsort hbound
    simp only [run] at hrun
    rcases hstep : step cfg s op with _ | s2 <;> rw [hstep] at hrun
    · exact absurd hrun (by simp)
    · have hpw1 := List.pairwise_cons.mp hpw
      have hfresh : predictFresh s op := by
        rcases op with ⟨inst, sn, pc, tid, r⟩ | _ | _ | _ <;>
          simp only [predictFresh]
        · intro e he
          exact hbound tid e he _ (by simp) inst sn pc r rfl
      have hsort2 := step_sorted_preserved cfg s op s2 hstep hfresh hsort
      refine ih s2 s1 hpw1.2 hrun hsort2 ?_
      intro t e he op2 hop2 inst2 sn2 pc2 r2 hop2eq
      rcases op with ⟨inst, sn, pc, tid, r⟩ | ⟨d, tid⟩ | ⟨sn, tid⟩ |
          ⟨sn, ct, tk, tid, r⟩
      · obtain ⟨ph, hsn, hhist⟩ :=
          step_predict_hist cfg s s2 inst sn pc tid r hstep
        rw [hhist t] at he
        by_cases ht : t = tid
        · subst ht
          rw [if_pos rfl] at he
          rcases List.mem_cons.mp he with hph | he2
          · subst hph
            rw [hsn]
            have := hpw1.1 op2 hop2
            rw [hop2eq] at this
            exact this rfl
          · exact hbound t e he2 op2 (by simp [hop2]) inst2 sn2 pc2 r2
              hop2eq
        · rw [if_neg ht] at he
          exact hbound t e he op2 (by simp [hop2]) inst2 sn2 pc2 r2 hop2eq
      · have hs2 : s2 = update cfg d tid s := by
          simpa [step] using hstep.symm
        subst hs2
        obtain ⟨e1, he1, heq1⟩ :=
          bound_transfer (update_sublist cfg d tid s t) he
        rw [← heq1]
        exact hbound t e1 he1 op2 (by simp [hop2]) inst2 sn2 pc2 r2 hop2eq
      · obtain ⟨e1, he1, heq1⟩ := bound_transfer
          (squash_sublist cfg sn tid s s2 (by simpa [step] using hstep) t)
          he
        rw [← heq1]
        exact hbound t e1 he1 op2 (by simp [hop2]) inst2 sn2 pc2 r2 hop2eq
      · obtain ⟨e1, he1, heq1⟩ := bound_transfer
          (mispredict_sublist cfg sn ct tk tid r s s2
            (by simpa [step] using hstep) t) he
        rw [← heq1]
        exact hbound t e1 he1 op2 (by simp [hop2]) inst2 sn2 pc2 r2 hop2eq

end BPredUnit

namespace BPredUnit

/-- C7: under fresh sequence numbers, the entries of every thread's
queue are strictly decreasing in seqNum from front to back: the
property is preserved by every single step (predict push-front, commit
pop-back loop, flush pop-front loop, misprediction squash), and it holds
in every state reachable from the initial state by a call sequence whose
predicts use strictly increasing sequence numbers per thread. -/
theorem hist_sorted :
    (∀ (cfg : Cfg) (s : BPState) (op : Op) (s1 : BPState),
       step cfg s op = some s1 → predictFresh s op →
       (∀ t, sortedDesc (seqNumsOf (s.predHist t))) →
       ∀ t, sortedDesc (seqNumsOf (s1.predHist t))) ∧
    (∀ (cfg : Cfg) (ops : List Op) (s1 : BPState),
       List.Pairwise opFreshRel ops →
       run cfg BPState.init ops = some s1 →
       ∀ t, sortedDesc (seqNumsOf (s1.predHist t))) := by
  refine ⟨step_sorted_preserved, ?_⟩
  intro cfg ops s1 hpw hrun
  refine run_sorted_aux cfg ops BPState.init s1 hpw hrun ?_ ?_
  · intro t; simp [BPState.init, seqNumsOf, sortedDesc]
  · intro t e he
    simp [BPState.init] at he

/-- Witness for C7 at concrete inputs: a concrete step preserves the
order and a concrete run from the initial state ends ordered. -/
theorem hist_sorted_witness :
    sortedDesc (seqNumsOf
      (((step cfgBoth BPState.init (Op.update 5 0)).getD
          BPState.init).predHist 0)) ∧
    sortedDesc (seqNumsOf (c6s1.predHist 0)) :=
  ⟨hist_sorted.1 cfgBoth BPState.init (Op.update 5 0)
      ((step cfgBoth BPState.init (Op.update 5 0)).getD BPState.init)
      rfl (by simp [predictFresh])
      (by intro t; simp [BPState.init, seqNumsOf, sortedDesc]) 0,
   hist_sorted.2 cfgBoth c6ops c6s1
      (by simp [c6ops, List.pairwise_cons, opFreshRel]) rfl 0⟩

end BPredUnit

namespace BPredUnit

/-- Pointwise order on the statistics counters. -/
def statsLE (a b : Stats) : Prop :=
  a.lookups ≤ b.lookups ∧ a.condPredicted ≤ b.condPredicted ∧
  a.condIncorrect ≤ b.condIncorrect ∧ a.BTBLookups ≤ b.BTBLookups ∧
  a.BTBUpdates ≤ b.BTBUpdates ∧ a.BTBHits ≤ b.BTBHits ∧
  a.RASUsed ≤ b.RASUsed ∧ a.RASIncorrect ≤ b.RASIncorrect ∧
  a.indirectLookups ≤ b.indirectLookups ∧
  a.indirectHits ≤ b.indirectHits ∧
  a.indirectMisses ≤ b.indirectMisses ∧
  a.indirectMispredicted ≤ b.indirectMispredicted

/-- One-step statistics relation: monotone growth, the BTB hit increment
never exceeds the BTB lookup increment, and the indirect hit plus miss
increments equal the indirect lookup increment. -/
def StatsStep (a b : Stats) : Prop :=
  statsLE a b ∧
  b.BTBHits + a.BTBLookups ≤ a.BTBHits + b.BTBLookups ∧
  b.indirectHits + b.indirectMisses + a.indirectLookups =
    a.indirectHits + a.indirectMisses + b.indirectLookups

/-- The one-step statistics relation is reflexive. -/
theorem statsStep_refl (a : Stats) : StatsStep a a := by
  simp [StatsStep, statsLE]

/-- The one-step statistics relation composes. -/
theorem statsStep_trans {a b c : Stats} (h1 : StatsStep a b)
    (h2 : StatsStep b c) : StatsStep a c := by
  obtain ⟨l1, p1, q1⟩ := h1
  obtain ⟨l2, p2, q2⟩ := h2
  obtain ⟨a1, a2, a3, a4, a5, a6, a7, a8, a9, a10, a11, a12⟩ := l1
  obtain ⟨b1, b2, b3, b4, b5, b6, b7, b8, b9, b10, b11, b12⟩ := l2
  refine ⟨⟨?_, ?_, ?_, ?_, ?_, ?_, ?_, ?_, ?_, ?_, ?_, ?_⟩, ?_, ?_⟩ <;>
    omega

/-- The RAS stage only bumps RASUsed. -/
theorem rasStage_stats (cfg : Cfg) (inst : Inst) (pc tid : Nat)
    (r : PredResp) (ph : PredictorHistory) (st : Stats)
    (tgt : Nat) (ph1 : PredictorHistory) (st1 : Stats) (evs : List Event)
    (hS : rasStage cfg inst pc tid r ph st = some (tgt, ph1, st1, evs)) :
    StatsStep st st1 := by
  cases hret : inst.isReturn <;> cases hc : inst.isCall <;>
    cases hras : cfg.hasRAS <;>
    simp_all [rasStage] <;>
    (obtain ⟨-, -, hst, -⟩ := hS; subst hst;
     simp [StatsStep, statsLE] <;> omega)

/-- The BTB stage bumps BTBLookups by one and BTBHits by at most one. -/
theorem btbStage_stats (cfg : Cfg) (inst : Inst) (pc tid : Nat)
    (r : PredResp) (pt : Bool) (tgt0 : Nat) (ph : PredictorHistory)
    (st : Stats) (b : Bool) (t : Nat) (ph2 : PredictorHistory)
    (st2 : Stats) (evs : List Event)
    (hS : btbStage cfg inst pc tid r pt tgt0 ph st =
            some (b, t, ph2, st2, evs)) :
    StatsStep st st2 := by
  cases hbt : r.btbTarget <;> cases hc : inst.isCall <;>
    cases hret : inst.isReturn <;> cases hu : inst.isUncondCtrl <;>
    cases hras : cfg.hasRAS <;>
    simp_all [btbStage] <;>
    (obtain ⟨-, -, -, hst, -⟩ := hS; subst hst;
     simp [StatsStep, statsLE] <;> omega)

/-- The indirect stage bumps indirectLookups by one and exactly one of
indirectHits and indirectMisses by one. -/
theorem indirectStage_stats (cfg : Cfg) (inst : Inst) (sn pc tid : Nat)
    (r : PredResp) (pt : Bool) (tgt0 : Nat) (ph : PredictorHistory)
    (st : Stats) (b : Bool) (t : Nat) (ph2 : PredictorHistory)
    (st2 : Stats) (evs : List Event)
    (hS : indirectStage cfg inst sn pc tid r pt tgt0 ph st =
            some (b, t, ph2, st2, evs)) :
    StatsStep st st2 := by
  cases hit : r.iTarget <;> cases hc : inst.isCall <;>
    cases hret : inst.isReturn <;> cases hu : inst.isUncondCtrl <;>
    cases hras : cfg.hasRAS <;>
    simp_all [indirectStage] <;>
    (obtain ⟨-, -, -, hst, -⟩ := hS; subst hst;
     simp [StatsStep, statsLE] <;> omega)

/-- The target-selection stage respects the one-step relation. -/
theorem targetStage_stats (cfg : Cfg) (inst : Inst) (sn pc tid : Nat)
    (r : PredResp) (pt : Bool) (ph0 : PredictorHistory) (st : Stats)
    (b : Bool) (t : Nat) (ph2 : PredictorHistory) (st2 : Stats)
    (evs : List Event)
    (hS : targetStage cfg inst sn pc tid r pt ph0 st =
            some (b, t, ph2, st2, evs)) :
    StatsStep st st2 := by
  cases hpt : pt
  · simp only [targetStage, hpt, Bool.false_eq_true, if_false,
      Option.some.injEq, Prod.mk.injEq] at hS
    obtain ⟨-, -, -, hst, -⟩ := hS
    subst hst
    exact statsStep_refl st
  · simp only [targetStage, hpt, if_true] at hS
    rcases hR : rasStage cfg inst pc tid r ph0 st
        with _ | ⟨tgt1, ph1, st1, evR⟩ <;> rw [hR] at hS
    · simp at hS
    · have hRs := rasStage_stats cfg inst pc tid r ph0 st tgt1 ph1 st1
        evR hR
      cases hret : inst.isReturn
      · simp only [hret, Bool.not_false, if_true] at hS
        by_cases hdi : (inst.isDirectCtrl || !cfg.hasIPred) = true
        · rw [if_pos hdi] at hS
          rcases hB : btbStage cfg inst pc tid r true tgt1 ph1 st1
              with _ | ⟨b3, t3, ph3, st3, evB⟩ <;> rw [hB] at hS
          · simp at hS
          · have hBs := btbStage_stats cfg inst pc tid r true tgt1 ph1
              st1 b3 t3 ph3 st3 evB hB
            simp only [Option.some.injEq, Prod.mk.injEq] at hS
            obtain ⟨-, -, -, hst, -⟩ := hS
            subst hst
            exact statsStep_trans hRs hBs
        · rw [if_neg hdi] at hS
          rcases hB : indirectStage cfg inst sn pc tid r true tgt1 ph1 st1
              with _ | ⟨b3, t3, ph3, st3, evB⟩ <;> rw [hB] at hS
          · simp at hS
          · have hBs := indirectStage_stats cfg inst sn pc tid r true tgt1
              ph1 st1 b3 t3 ph3 st3 evB hB
            simp only [Option.some.injEq, Prod.mk.injEq] at hS
            obtain ⟨-, -, -, hst, -⟩ := hS
            subst hst
            exact statsStep_trans hRs hBs
      · simp only [hret, Bool.not_true, Bool.false_eq_true, if_false,
          Option.some.injEq, Prod.mk.injEq] at hS
        obtain ⟨-, -, -, hst, -⟩ := hS
        subst hst
        exact hRs

/-- One predict call respects the one-step statistics relation. -/
theorem predictCore_stats (cfg : Cfg) (inst : Inst) (sn pc tid : Nat)
    (r : PredResp) (st : Stats) (b : Bool) (pc1 : Nat)
    (ph : PredictorHistory) (evs : List Event) (st1 : Stats)
    (hS : predictCore cfg inst sn pc tid r st = some (b, pc1, ph, evs, st1)) :
    StatsStep st st1 := by
  unfold predictCore at hS
  simp only [] at hS
  rcases hdir : dirStage inst pc tid r { st with lookups := st.lookups + 1 }
      with ⟨pt0, bpTok, stD, evD⟩
  rw [hdir] at hS
  rcases hT : targetStage cfg inst sn pc tid r pt0
      (PredictorHistory.init sn pc pt0 bpTok none tid inst) stD
      with _ | ⟨b2, tgt2, ph2, stF, evT⟩ <;> rw [hT] at hS
  · simp at hS
  · have hTs := targetStage_stats cfg inst sn pc tid r pt0
      (PredictorHistory.init sn pc pt0 bpTok none tid inst) stD b2 tgt2
      ph2 stF evT hT
    have hD : StatsStep st stD := by
      have h0 : StatsStep st { st with lookups := st.lookups + 1 } := by
        simp [StatsStep, statsLE]
      have h1 : StatsStep { st with lookups := st.lookups + 1 } stD := by
        cases hu : inst.isUncondCtrl <;>
          simp only [dirStage, hu, Bool.false_eq_true, if_true, if_false,
            Prod.mk.injEq] at hdir <;>
          obtain ⟨-, -, hst, -⟩ := hdir
        · subst hst; simp [StatsStep, statsLE]
        · subst hst; exact statsStep_refl _
      exact statsStep_trans h0 h1
    simp only [Option.some.injEq, Prod.mk.injEq] at hS
    obtain ⟨-, -, -, -, hst⟩ := hS
    subst hst
    exact statsStep_trans hD hTs

/-- The boundary handling of a misprediction respects the one-step
statistics relation. -/
theorem mbStats_stats (tk : Bool) (f : PredictorHistory) (st : Stats) :
    StatsStep st (mbStats tk f st) := by
  cases hrs : f.rasHistory.isSome <;> cases htk : tk <;>
    cases hwi : f.wasIndirect <;>
    simp [mbStats, hrs, htk, hwi, StatsStep, statsLE]

/-- Every successful step respects the one-step statistics relation. -/
theorem step_stats (cfg : Cfg) (s : BPState) (op : Op) (s1 : BPState)
    (hS : step cfg s op = some s1) : StatsStep s.stats s1.stats := by
  rcases op with ⟨inst, sn, pc, tid, r⟩ | ⟨d, tid⟩ | ⟨sn, tid⟩ |
      ⟨sn, ct, tk, tid, r⟩
  · simp only [step, predict] at hS
    rcases hP : predictCore cfg inst sn pc tid r s.stats
        with _ | ⟨b, pcOut, ph, evs, st⟩ <;> rw [hP] at hS
    · simp at hS
    · simp only [Option.some.injEq] at hS
      subst hS
      exact predictCore_stats cfg inst sn pc tid r s.stats b pcOut ph evs
        st hP
  · have hs1 : s1 = update cfg d tid s := by simpa [step] using hS.symm
    subst hs1
    exact statsStep_refl _
  · have hS2 : squash cfg sn tid s = some s1 := by simpa [step] using hS
    rcases hFl : flushLoop cfg tid sn (s.predHist tid) with _ | fl <;>
      rw [squash, hFl] at hS2
    · exact absurd hS2 (by simp)
    · simp only [Option.some.injEq] at hS2
      subst hS2
      exact statsStep_refl _
  · have hS2 : squashMispredict cfg sn ct tk tid r s = some s1 := by
      simpa [step] using hS
    rcases hFl : flushLoop cfg tid sn (s.predHist tid) with _ | fl
    · rw [squashMispredict, hFl] at hS2; exact absurd hS2 (by simp)
    · rcases hl : fl.1 with _ | ⟨f, rest⟩
      · have hEq := (mispredict_boundary_protocol cfg sn ct tk tid r s fl
          hFl).1 hl
        rw [hEq] at hS2
        simp only [Option.some.injEq] at hS2
        subst hS2
        simp [StatsStep, statsLE]
      · by_cases heq : f.seqNum = sn
        · rw [mispredict_boundary_eq cfg sn ct tk tid r s fl f rest hFl hl
            heq] at hS2
          simp only [Option.some.injEq] at hS2
          subst hS2
          exact mbStats_stats tk f s.stats
        · have hNe := (mispredict_boundary_protocol cfg sn ct tk tid r s
            fl hFl).2.1 f rest hl heq
          rw [hNe] at hS2; exact absurd hS2 (by simp)

/-- A whole run respects the one-step statistics relation. -/
theorem run_stats (cfg : Cfg) :
    ∀ (ops : List Op) (s s1 : BPState), run cfg s ops = some s1 →
      StatsStep s.stats s1.stats := by
  intro ops
  induction ops with
  | nil =>
    intro s s1 hrun
    simp only [run, Option.some.injEq] at hrun
    subst hrun
    exact statsStep_refl _
  | cons op ops ih =>
    intro s s1 hrun
    simp only [run] at hrun
    rcases hstep : step cfg s op with _ | s2 <;> rw [hstep] at hrun
    · exact absurd hrun (by simp)
    · exact statsStep_trans (step_stats cfg s op s2 hstep) (ih s2 s1 hrun)

end BPredUnit

namespace BPredUnit

/-- C8: every statistics counter is monotonically non-decreasing across
every operation, and in every state reachable from the initial state
BTBHits is at most BTBLookups and indirectHits plus indirectMisses
equals indirectLookups: each predict that consults the indirect
predictor bumps indirectLookups and then exactly one of indirectHits or
indirectMisses, and each BTB consultation bumps BTBLookups and bumps
BTBHits only on a hit (the StatsStep relation of each step). -/
theorem stats_invariants :
    (∀ (cfg : Cfg) (s : BPState) (op : Op) (s1 : BPState),
       step cfg s op = some s1 → StatsStep s.stats s1.stats) ∧
    (∀ (cfg : Cfg) (ops : List Op) (s1 : BPState),
       run cfg BPState.init ops = some s1 →
       statsLE Stats.init s1.stats ∧
       s1.stats.BTBHits ≤ s1.stats.BTBLookups ∧
       s1.stats.indirectHits + s1.stats.indirectMisses =
         s1.stats.indirectLookups) := by
  refine ⟨step_stats, ?_⟩
  intro cfg ops s1 hrun
  have h := run_stats cfg ops BPState.init s1 hrun
  obtain ⟨hle, hbtb, hind⟩ := h
  refine ⟨hle, ?_, ?_⟩
  · have h0 : BPState.init.stats.BTBHits = 0 := rfl
    have h1 : BPState.init.stats.BTBLookups = 0 := rfl
    omega
  · have h0 : BPState.init.stats.indirectHits = 0 := rfl
    have h1 : BPState.init.stats.indirectMisses = 0 := rfl
    have h2 : BPState.init.stats.indirectLookups = 0 := rfl
    omega

/-- Witness for C8 at concrete inputs: a concrete step and the state
after a concrete run. -/
theorem stats_invariants_witness :
    StatsStep BPState.init.stats
      ((step cfgBoth BPState.init (Op.update 5 0)).getD
        BPState.init).stats ∧
    (statsLE Stats.init c6s1.stats ∧
     c6s1.stats.BTBHits ≤ c6s1.stats.BTBLookups ∧
     c6s1.stats.indirectHits + c6s1.stats.indirectMisses =
       c6s1.stats.indirectLookups) :=
  ⟨stats_invariants.1 cfgBoth BPState.init (Op.update 5 0)
      ((step cfgBoth BPState.init (Op.update 5 0)).getD BPState.init) rfl,
   stats_invariants.2 cfgBoth c6ops c6s1 rfl⟩

end BPredUnit
